/-
  Verification of the xodr (OpenDRIVE) library: a shallow embedding in Lean 4
  of the Poly3, reference-line tessellation, lane-section, link-validation and
  declarative XML attribute-parsing code, together with proofs of the
  behavioural properties claimed for them.

  Numeric modelling: the C++ code computes with IEEE doubles; the embedding
  uses exact rationals (ℚ) for all arithmetic the code performs, and passes the
  external math primitives (cos, sin, atan, atan2, the odrSpiral Fresnel
  primitive, sqrt) as explicit function parameters, since those are external
  library calls from the point of view of the translated sources.
-/
import Mathlib

namespace Xodr

/-! ## Poly3 (src/xodr/poly3.h, src/xodr/poly3.cpp) -/

/-- A cubic polynomial `f(t) = a + b·t + c·t² + d·t³` (class `Poly3`). -/
structure Poly3 where
  a : ℚ
  b : ℚ
  c : ℚ
  d : ℚ
deriving DecidableEq, Repr

/-- `Poly3::eval`: Horner evaluation `a_ + t * (b_ + t * (c_ + t * d_))`. -/
def Poly3.eval (p : Poly3) (t : ℚ) : ℚ :=
  p.a + t * (p.b + t * (p.c + t * p.d))

/-- `Poly3::evalDerivative`: `b_ + t * (2*c_ + t * 3*d_)`. -/
def Poly3.evalDerivative (p : Poly3) (t : ℚ) : ℚ :=
  p.b + t * (2 * p.c + t * 3 * p.d)

/-- `Poly3::eval2ndDerivative`: `2*c_ + t * 6*d_`. -/
def Poly3.eval2ndDerivative (p : Poly3) (t : ℚ) : ℚ :=
  2 * p.c + t * 6 * p.d

/-- `Poly3::translate`: the coefficient substitution performed by the source
(`result.d_ = d_; result.c_ = -3*offset*d_ + c_;
  result.b_ = 3*offset²*d_ - 2*offset*c_ + b_;
  result.a_ = -offset³*d_ + offset²*c_ - offset*b_ + a_`). -/
def Poly3.translate (p : Poly3) (offset : ℚ) : Poly3 :=
  { d := p.d
    c := -3 * offset * p.d + p.c
    b := 3 * offset * offset * p.d - 2 * offset * p.c + p.b
    a := -offset * offset * offset * p.d + offset * offset * p.c - offset * p.b + p.a }

/-- `Poly3::scale`: `b_ *= factor; c_ *= factor²; d_ *= factor³`. -/
def Poly3.scale (p : Poly3) (factor : ℚ) : Poly3 :=
  { a := p.a
    b := p.b * factor
    c := p.c * (factor * factor)
    d := p.d * (factor * factor * factor) }

/-- `std::max(x, y, compare)`: returns `y` when `compare x y` holds, else `x`. -/
def maxBy (compare : ℚ → ℚ → Bool) (x y : ℚ) : ℚ :=
  if compare x y then y else x

/-- The `EPSILON` constant of `extremeValueInInterval` (`1e-6`). -/
def extremeEpsilon : ℚ := 1 / 1000000

/-- `extremeValueInInterval` (anonymous namespace of poly3.cpp), with the
comparison functor and the library `sqrt` passed explicitly. -/
def extremeValueInInterval (sqrtFn : ℚ → ℚ) (compare : ℚ → ℚ → Bool)
    (poly : Poly3) (startT endT : ℚ) : ℚ :=
  let extreme := maxBy compare (poly.eval startT) (poly.eval endT)
  if |poly.d| < extremeEpsilon then
    if |poly.c| < extremeEpsilon then
      extreme
    else
      let root := -poly.b / (2 * poly.c)
      if root < startT ∨ root > endT then
        extreme
      else
        maxBy compare extreme (poly.eval root)
  else
    let derivDiscSq := 4 * poly.c * poly.c - 12 * poly.d * poly.b
    if derivDiscSq > 0 then
      let derivativeDiscriminant := sqrtFn derivDiscSq
      let rootA := (derivativeDiscriminant - 2 * poly.c) / (6 * poly.d)
      let rootB := (-derivativeDiscriminant - 2 * poly.c) / (6 * poly.d)
      let extreme1 :=
        if rootA > startT ∧ rootA < endT then maxBy compare extreme (poly.eval rootA)
        else extreme
      let extreme2 :=
        if rootB > startT ∧ rootB < endT then maxBy compare extreme1 (poly.eval rootB)
        else extreme1
      extreme2
    else if derivDiscSq > -extremeEpsilon then
      let root := poly.c / (-3 * poly.d)
      maxBy compare extreme (poly.eval root)
    else
      extreme

/-- `Poly3::maxValueInInterval`: instantiates the comparison with `std::less`. -/
def Poly3.maxValueInInterval (sqrtFn : ℚ → ℚ) (p : Poly3) (startT endT : ℚ) : ℚ :=
  extremeValueInInterval sqrtFn (fun x y => decide (x < y)) p startT endT

/-- `Poly3::minValueInInterval`: instantiates the comparison with `std::greater`. -/
def Poly3.minValueInInterval (sqrtFn : ℚ → ℚ) (p : Poly3) (startT endT : ℚ) : ℚ :=
  extremeValueInInterval sqrtFn (fun x y => decide (x > y)) p startT endT

/-! ## Reference line geometry (src/xodr/reference_line.h / .cpp) -/

/-- The external math primitives used by the geometry code (`std::cos`,
`std::sin`, `std::atan`, `std::atan2` and the external clothoid primitive
`odrSpiral(p, rate) → (x, y, heading)`), passed in explicitly. -/
structure MathFns where
  cos : ℚ → ℚ
  sin : ℚ → ℚ
  atan : ℚ → ℚ
  atan2 : ℚ → ℚ → ℚ
  odrSpiral : ℚ → ℚ → ℚ × ℚ × ℚ

/-- `ReferenceLine::Vertex`: an s-coordinate, a world position and a heading. -/
structure Vertex where
  sCoord : ℚ
  position : ℚ × ℚ
  heading : ℚ
deriving DecidableEq, Repr

/-- The constant `NUM_VERTICES_PER_METER = 1` of reference_line.cpp. -/
def numVerticesPerMeter : ℚ := 1

/-- The step count `static_cast<int>(std::ceil((endS - startS) * NUM_VERTICES_PER_METER))`
shared by every geometry's `tessellate`. -/
def tessNum (startS endS : ℚ) : ℤ :=
  ⌈(endS - startS) * numVerticesPerMeter⌉

/-- The step size `(endS - startS) / num` shared by every geometry's `tessellate`. -/
def tessStep (startS endS : ℚ) : ℚ :=
  (endS - startS) / (tessNum startS endS : ℚ)

/-- The loop bound after the `if (includeEndPt) num++;` adjustment. -/
def tessCount (startS endS : ℚ) (includeEndPt : Bool) : ℕ :=
  (if includeEndPt then tessNum startS endS + 1 else tessNum startS endS).toNat

/-- `Rotation2Dd(angle) * v`, with the trigonometric primitives from `fns`. -/
def rotate2 (fns : MathFns) (angle : ℚ) (v : ℚ × ℚ) : ℚ × ℚ :=
  (fns.cos angle * v.1 - fns.sin angle * v.2,
   fns.sin angle * v.1 + fns.cos angle * v.2)

/-- `ReferenceLine::Line::tessellate`: appends `num` (or `num+1`) vertices
advancing along the fixed heading direction. -/
def lineTessellate (fns : MathFns) (startVertex : Vertex) (tessellation : List Vertex)
    (startS endS : ℚ) (includeEndPt : Bool) : List Vertex :=
  let forward := (fns.cos startVertex.heading, fns.sin startVertex.heading)
  let startT := startS - startVertex.sCoord
  let stepSize := tessStep startS endS
  tessellation ++ (List.range (tessCount startS endS includeEndPt)).map (fun (i : ℕ) =>
    let t := startT + (i : ℚ) * stepSize
    { sCoord := startS + (i : ℚ) * stepSize
      position := (startVertex.position.1 + t * forward.1,
                   startVertex.position.2 + t * forward.2)
      heading := startVertex.heading })

/-- `ReferenceLine::Arc::tessellate`: vertices on the circle of radius
`1/curvature` centred one radius to the left of the start vertex. -/
def arcTessellate (fns : MathFns) (startVertex : Vertex) (curvature : ℚ)
    (tessellation : List Vertex) (startS endS : ℚ) (includeEndPt : Bool) : List Vertex :=
  let radius := 1 / curvature
  let toCenter := (-(fns.sin startVertex.heading), fns.cos startVertex.heading)
  let center := (startVertex.position.1 + toCenter.1 * radius,
                 startVertex.position.2 + toCenter.2 * radius)
  let stepSize := tessStep startS endS
  let clampedStartHeading := startVertex.heading + (startS - startVertex.sCoord) * curvature
  tessellation ++ (List.range (tessCount startS endS includeEndPt)).map (fun (i : ℕ) =>
    let heading := clampedStartHeading + (i : ℚ) * stepSize * curvature
    let toCircle := (fns.sin heading, -(fns.cos heading))
    { sCoord := startS + (i : ℚ) * stepSize
      position := (center.1 + toCircle.1 * radius, center.2 + toCircle.2 * radius)
      heading := heading })

/-- `ReferenceLine::Spiral::tessellate`: vertices obtained from the canonical
clothoid primitive, rotated and translated to the start vertex's frame. -/
def spiralTessellate (fns : MathFns) (startVertex : Vertex) (length startCurvature endCurvature : ℚ)
    (tessellation : List Vertex) (startS endS : ℚ) (includeEndPt : Bool) : List Vertex :=
  let rateOfChange := (endCurvature - startCurvature) / length
  let curveStartParam := startCurvature / rateOfChange
  let start3 := fns.odrSpiral curveStartParam rateOfChange
  let curveStartPt := (start3.1, start3.2.1)
  let curveStartHeading := start3.2.2
  let rotAngle := startVertex.heading - curveStartHeading
  let stepSize := tessStep startS endS
  let startParam := curveStartParam + (startS - startVertex.sCoord)
  tessellation ++ (List.range (tessCount startS endS includeEndPt)).map (fun (i : ℕ) =>
    let t := startParam + (i : ℚ) * stepSize
    let cur3 := fns.odrSpiral t rateOfChange
    let offset := rotate2 fns rotAngle (cur3.1 - curveStartPt.1, cur3.2.1 - curveStartPt.2)
    { sCoord := startS + (i : ℚ) * stepSize
      position := (startVertex.position.1 + offset.1, startVertex.position.2 + offset.2)
      heading := startVertex.heading + (cur3.2.2 - curveStartHeading) })

/-- `ReferenceLine::Poly3Geom::tessellate`: vertices `(u, poly(u))` in the frame
rotated by the start heading. -/
def poly3GeomTessellate (fns : MathFns) (startVertex : Vertex) (poly : Poly3)
    (tessellation : List Vertex) (startS endS : ℚ) (includeEndPt : Bool) : List Vertex :=
  let forward := (fns.cos startVertex.heading, fns.sin startVertex.heading)
  let side := (-forward.2, forward.1)
  let startU := startS - startVertex.sCoord
  let stepSize := tessStep startS endS
  tessellation ++ (List.range (tessCount startS endS includeEndPt)).map (fun (i : ℕ) =>
    let u := startU + (i : ℚ) * stepSize
    let v := poly.eval u
    { sCoord := startS + (i : ℚ) * stepSize
      position := (startVertex.position.1 + u * forward.1 + v * side.1,
                   startVertex.position.2 + u * forward.2 + v * side.2)
      heading := startVertex.heading + fns.atan (poly.evalDerivative u) })

/-- `ReferenceLine::ParamPoly3::PRange`. -/
inductive PRange where
  | arcLength
  | normalized
deriving DecidableEq, Repr

/-- `ReferenceLine::ParamPoly3::tessellate`: vertices `(uPoly(t), vPoly(t))`,
with the parameter step scaled by `1/length` for a normalized p-range. -/
def paramPoly3Tessellate (fns : MathFns) (startVertex : Vertex) (length : ℚ)
    (uPoly vPoly : Poly3) (pRange : PRange)
    (tessellation : List Vertex) (startS endS : ℚ) (includeEndPt : Bool) : List Vertex :=
  let forward := (fns.cos startVertex.heading, fns.sin startVertex.heading)
  let side := (-forward.2, forward.1)
  let stepSize := tessStep startS endS
  let scale := if pRange = PRange.normalized then 1 / length else 1
  let startParam := (startS - startVertex.sCoord) * scale
  let paramStepSize := stepSize * scale
  tessellation ++ (List.range (tessCount startS endS includeEndPt)).map (fun (i : ℕ) =>
    let t := startParam + (i : ℚ) * paramStepSize
    let u := uPoly.eval t
    let v := vPoly.eval t
    { sCoord := startS + (i : ℚ) * stepSize
      position := (startVertex.position.1 + u * forward.1 + v * side.1,
                   startVertex.position.2 + u * forward.2 + v * side.2)
      heading := startVertex.heading + fns.atan2 (vPoly.evalDerivative t) (uPoly.evalDerivative t) })

/-- The closed sum of the five `ReferenceLine::Geometry` subclasses, each
carrying its start vertex, length and per-variant data. -/
inductive Geometry where
  | line (startVertex : Vertex) (length : ℚ)
  | arc (startVertex : Vertex) (length : ℚ) (curvature : ℚ)
  | spiral (startVertex : Vertex) (length : ℚ) (startCurvature endCurvature : ℚ)
  | poly3Geom (startVertex : Vertex) (length : ℚ) (poly : Poly3)
  | paramPoly3 (startVertex : Vertex) (length : ℚ) (uPoly vPoly : Poly3) (pRange : PRange)
deriving DecidableEq, Repr

/-- `ReferenceLine::Geometry::startVertex()`. -/
def Geometry.startVertex : Geometry → Vertex
  | .line sv _ => sv
  | .arc sv _ _ => sv
  | .spiral sv _ _ _ => sv
  | .poly3Geom sv _ _ => sv
  | .paramPoly3 sv _ _ _ _ => sv

/-- `ReferenceLine::Geometry::length()`. -/
def Geometry.length : Geometry → ℚ
  | .line _ len => len
  | .arc _ len _ => len
  | .spiral _ len _ _ => len
  | .poly3Geom _ len _ => len
  | .paramPoly3 _ len _ _ _ => len

/-- Virtual dispatch of `tessellate` over the five geometry variants. -/
def Geometry.tessellate (fns : MathFns) (g : Geometry) (tessellation : List Vertex)
    (startS endS : ℚ) (includeEndPt : Bool) : List Vertex :=
  match g with
  | .line sv _ => lineTessellate fns sv tessellation startS endS includeEndPt
  | .arc sv _ curvature => arcTessellate fns sv curvature tessellation startS endS includeEndPt
  | .spiral sv len c0 c1 => spiralTessellate fns sv len c0 c1 tessellation startS endS includeEndPt
  | .poly3Geom sv _ poly => poly3GeomTessellate fns sv poly tessellation startS endS includeEndPt
  | .paramPoly3 sv len uP vP pr => paramPoly3Tessellate fns sv len uP vP pr tessellation startS endS includeEndPt

/-- `ReferenceLine`: the ordered geometries plus the cached end vertex. -/
structure ReferenceLine where
  geometries : List Geometry
  endVertex : Vertex

/-- The geometry loop of `ReferenceLine::tessellate`: for each geometry the
native range end is the next geometry's start s-coord (or `start + length` for
the final geometry); the clipped range is tessellated when non-empty, with
`includeEndPt = (clampedEndS == endS)`. -/
def refTessLoop (fns : MathFns) (startS endS : ℚ) : List Geometry → List Vertex
  | [] => []
  | [g] =>
    let geomStartS := g.startVertex.sCoord
    let geomEndS := geomStartS + g.length
    let clampedStartS := max startS geomStartS
    let clampedEndS := min endS geomEndS
    if clampedStartS < clampedEndS then
      g.tessellate fns [] clampedStartS clampedEndS (clampedEndS = endS)
    else []
  | g :: g2 :: rest =>
    let geomStartS := g.startVertex.sCoord
    let geomEndS := g2.startVertex.sCoord
    let clampedStartS := max startS geomStartS
    let clampedEndS := min endS geomEndS
    (if clampedStartS < clampedEndS then
      g.tessellate fns [] clampedStartS clampedEndS (clampedEndS = endS)
    else []) ++ refTessLoop fns startS endS (g2 :: rest)

/-- `ReferenceLine::tessellate(startS, endS)`. -/
def ReferenceLine.tessellate (fns : MathFns) (rl : ReferenceLine) (startS endS : ℚ) : List Vertex :=
  refTessLoop fns startS endS rl.geometries

/-! ## Lane sections (src/xodr/lane_section.h / .cpp) -/

/-- `LaneSection::WidthPoly3`: an s-offset and a width polynomial. -/
structure WidthPoly3 where
  sOffset : ℚ
  poly3 : Poly3
deriving DecidableEq, Repr

/-- `LaneSection::Lane` (the fields used by the verified operations: the lane
id, the width polynomials and the optional predecessor/successor lane links,
with `LaneIDOpt` modelled as `Option ℤ`). -/
structure Lane where
  id : ℤ
  widthPoly3s : List WidthPoly3
  predecessor : Option ℤ
  successor : Option ℤ
deriving DecidableEq, Repr

instance : Inhabited Lane := ⟨⟨0, [], none, none⟩⟩

/-- `LaneSection` (the fields used by the verified operations). -/
structure LaneSection where
  startS : ℚ
  endS : ℚ
  numLeftLanes : ℤ
  lanes : List Lane
deriving DecidableEq, Repr

/-- `LaneSection::numRightLanes()`: `lanes_.size() - numLeftLanes_`. -/
def LaneSection.numRightLanes (ls : LaneSection) : ℤ :=
  (ls.lanes.length : ℤ) - ls.numLeftLanes

/-- `LaneSection::laneIndexToId`: `id = numLeftLanes_ - idx`, then subtract 1
when `id <= 0` to skip the center lane's id 0. -/
def LaneSection.laneIndexToId (ls : LaneSection) (idx : ℤ) : ℤ :=
  let id := ls.numLeftLanes - idx
  if id ≤ 0 then id - 1 else id

/-- `LaneSection::laneIdToIndex`: `idx = numLeftLanes_ - id`, then subtract 1
when `idx >= numLeftLanes_` to account for the omitted center lane. -/
def LaneSection.laneIdToIndex (ls : LaneSection) (id : ℤ) : ℤ :=
  let idx := ls.numLeftLanes - id
  if idx ≥ ls.numLeftLanes then idx - 1 else idx

/-- `LaneSection::laneById`: `lanes_[laneIdToIndex(id)]`. -/
def LaneSection.laneById (ls : LaneSection) (id : ℤ) : Lane :=
  ls.lanes.getD (ls.laneIdToIndex id).toNat default

/-- `LaneSection::Lane::widthAtSCoord`: scan `polyIdx` from 1 until
`s < widthPoly3s_[polyIdx].sOffset()`, then evaluate entry `polyIdx - 1` at
`s - sOffset`. The vector read is modelled by `List.get?`, so the result is
`none` exactly when the source indexes out of bounds. -/
def widthAtSCoord (widthPoly3s : List WidthPoly3) (s : ℚ) : Option ℚ :=
  let polyIdx := 1 + ((widthPoly3s.drop 1).takeWhile (fun p => decide (p.sOffset ≤ s))).length
  match widthPoly3s.get? (polyIdx - 1) with
  | none => none
  | some poly => some (poly.poly3.eval (s - poly.sOffset))

/-- The inner `while` of `tessellateLaneBoundariesSide` advancing `curPolyIt`
while the next polynomial (if any) has `sOffset <= param`. -/
def advancePoly (cur : WidthPoly3) (next : List WidthPoly3) (param : ℚ) :
    WidthPoly3 × List WidthPoly3 :=
  match next with
  | [] => (cur, [])
  | n :: rest => if param ≥ n.sOffset then advancePoly n rest param else (cur, n :: rest)

/-- The per-lane sample loop of `tessellateLaneBoundariesSide`: walks the
reference-line samples in step with the inner boundary's lateral positions,
advancing through the lane's width polynomials, and emits
`inner + poly.eval(param - sOffset) * (-stepDir)` per sample. -/
def boundaryRowLoop (startS : ℚ) (stepDir : ℤ) :
    List (Vertex × ℚ) → WidthPoly3 → List WidthPoly3 → List ℚ
  | [], _, _ => []
  | (v, inner) :: rest, cur, next =>
    let param := v.sCoord - startS
    let advanced := advancePoly cur next param
    let ds := param - advanced.1.sOffset
    (inner + advanced.1.poly3.eval ds * (-(stepDir : ℚ))) ::
      boundaryRowLoop startS stepDir rest advanced.1 advanced.2

/-- One lane's boundary row: the source initializes `curPolyIt` to the first
width polynomial and dereferences it for every reference-line sample, so the
result is `none` (out-of-bounds read) exactly when the lane has no width
polynomial and at least one sample is processed. -/
def laneBoundaryRow (startS : ℚ) (stepDir : ℤ) (refLineTessellation : List Vertex)
    (inner : List ℚ) (widthPoly3s : List WidthPoly3) : Option (List ℚ) :=
  match widthPoly3s with
  | [] => if refLineTessellation.isEmpty then some [] else none
  | cur :: next => some (boundaryRowLoop startS stepDir (refLineTessellation.zip inner) cur next)

/-- The lane loop of `tessellateLaneBoundariesSide` over the walked lane
indices (`lanesBegin`, stepping by `stepDir` until `lanesEnd`), threading the
previous boundary as the inner one; returns the emitted boundary rows in walk
order. -/
def tessSide (ls : LaneSection) (refLineTessellation : List Vertex) (stepDir : ℤ) :
    List ℕ → List ℚ → Option (List (List ℚ))
  | [], _ => some []
  | i :: rest, inner =>
    match laneBoundaryRow ls.startS stepDir refLineTessellation inner
        (ls.lanes.getD i default).widthPoly3s with
    | none => none
    | some row =>
      match tessSide ls refLineTessellation stepDir rest row with
      | none => none
      | some more => some (row :: more)

/-- The walked lane indices of the left side: `numLeftLanes_ - 1` down to `0`. -/
def leftLaneIndices (ls : LaneSection) : List ℕ :=
  (List.range ls.numLeftLanes.toNat).reverse

/-- The walked lane indices of the right side: `numLeftLanes_` up to
`lanes_.size() - 1`. -/
def rightLaneIndices (ls : LaneSection) : List ℕ :=
  List.range' ls.numLeftLanes.toNat (ls.lanes.length - ls.numLeftLanes.toNat)

/-- `LaneSection::tessellateLaneBoundaries`: boundary `numLeftLanes_` is the
reference line itself (all-zero lateral positions); the left lanes are walked
outward with `stepDir = -1` and the right lanes with `stepDir = +1`. The
result lists the lateral-position rows of boundaries `0 .. lanes.len`,
left-most first. -/
def tessellateLaneBoundaries (ls : LaneSection) (refLineTessellation : List Vertex) :
    Option (List (List ℚ)) :=
  let center : List ℚ := List.replicate refLineTessellation.length 0
  match (if ls.numLeftLanes ≠ 0 then
          tessSide ls refLineTessellation (-1) (leftLaneIndices ls) center
        else some []) with
  | none => none
  | some leftRows =>
    match (if ls.numLeftLanes < (ls.lanes.length : ℤ) then
            tessSide ls refLineTessellation 1 (rightLaneIndices ls) center
          else some []) with
    | none => none
    | some rightRows => some (leftRows.reverse ++ center :: rightRows)

/-- `LaneSection::tessellateLaneBoundaryCurves`: lifts each boundary's lateral
positions to world space with `perp = (-sin heading, cos heading)` per sample. -/
def tessellateLaneBoundaryCurves (fns : MathFns) (ls : LaneSection)
    (refLineTessellation : List Vertex) : Option (List (List (ℚ × ℚ))) :=
  match tessellateLaneBoundaries ls refLineTessellation with
  | none => none
  | some boundaries =>
    some (boundaries.map (fun lateralPositions =>
      (refLineTessellation.zip lateralPositions).map (fun vl =>
        let perp := (-(fns.sin vl.1.heading), fns.cos vl.1.heading)
        (vl.1.position.1 + perp.1 * vl.2, vl.1.position.2 + perp.2 * vl.2))))

/-! ## Roads, junctions and links (src/xodr/road_link.h / .cpp, road.h / .cpp,
junction.h / .cpp, xodr_map.h) -/

/-- `RoadLinkType`. -/
inductive RoadLinkType where
  | PREDECESSOR
  | SUCCESSOR
deriving DecidableEq, Repr

/-- `ContactPoint` (the `NOT_SPECIFIED` state never survives parsing and is
asserted against throughout the validation code). -/
inductive ContactPoint where
  | START
  | END
deriving DecidableEq, Repr

/-- `linkTypeForContactPoint`. -/
def linkTypeForContactPoint : ContactPoint → RoadLinkType
  | .START => .PREDECESSOR
  | .END => .SUCCESSOR

/-- `oppositeContactPoint`. -/
def oppositeContactPoint : ContactPoint → ContactPoint
  | .START => .END
  | .END => .START

/-- `RoadLink`: the tagged union over `ElementType`, with resolved references
modelled as indices into the map's road/junction vectors. -/
inductive RoadLink where
  | notSpecified
  | road (elementIdx : ℕ) (contactPoint : ContactPoint)
  | junction (elementIdx : ℕ)
deriving DecidableEq, Repr

/-- `Road` (the fields used by link validation; `junctionRef_` is `none` for
the `-1` null sentinel). -/
structure Road where
  junctionRef : Option ℕ
  predecessor : RoadLink
  successor : RoadLink
  laneSections : List LaneSection
deriving DecidableEq, Repr

instance : Inhabited LaneSection := ⟨⟨0, 0, 0, []⟩⟩

instance : Inhabited Road := ⟨⟨none, .notSpecified, .notSpecified, []⟩⟩

/-- `Road::roadLink(roadLinkType)`. -/
def Road.roadLink (r : Road) : RoadLinkType → RoadLink
  | .PREDECESSOR => r.predecessor
  | .SUCCESSOR => r.successor

/-- `Road::laneSectionIndexForContactPoint`. -/
def Road.laneSectionIndexForContactPoint (r : Road) : ContactPoint → ℕ
  | .START => 0
  | .END => r.laneSections.length - 1

/-- `Junction::LaneLink`: a `from` and a `to` lane id. -/
structure LaneLink where
  fromId : ℤ
  toId : ℤ
deriving DecidableEq, Repr

/-- `Junction::Connection`, with resolved road references as indices. -/
structure Connection where
  incomingRoad : ℕ
  connectingRoad : ℕ
  contactPoint : ContactPoint
  laneLinks : List LaneLink
deriving DecidableEq, Repr

instance : Inhabited Connection := ⟨⟨0, 0, .START, []⟩⟩

/-- `Junction`. -/
structure Junction where
  connections : List Connection
deriving DecidableEq, Repr

instance : Inhabited Junction := ⟨⟨[]⟩⟩

/-- `Junction::hasConnection(incomingRoadIdx, connectingRoadIdx, contactPoint)`. -/
def Junction.hasConnection (j : Junction) (incomingRoadIdx connectingRoadIdx : ℕ)
    (contactPoint : ContactPoint) : Bool :=
  j.connections.any (fun conn =>
    conn.incomingRoad = incomingRoadIdx ∧ conn.connectingRoad = connectingRoadIdx ∧
      conn.contactPoint = contactPoint)

/-- `Junction::findConnection(incomingRoadIdx, connectingRoadIdx, contactPoint)`. -/
def Junction.findConnection (j : Junction) (incomingRoadIdx connectingRoadIdx : ℕ)
    (contactPoint : ContactPoint) : Option Connection :=
  j.connections.find? (fun conn =>
    conn.incomingRoad = incomingRoadIdx ∧ conn.connectingRoad = connectingRoadIdx ∧
      conn.contactPoint = contactPoint)

/-- `Junction::hasOutgoingConnection(connectingRoadIdx, contactPoint)`: searches
for a connection of the connecting road whose contact point is the opposite
one. -/
def Junction.hasOutgoingConnection (j : Junction) (connectingRoadIdx : ℕ)
    (contactPoint : ContactPoint) : Bool :=
  let incomingContactPoint := oppositeContactPoint contactPoint
  j.connections.any (fun conn =>
    conn.connectingRoad = connectingRoadIdx ∧ conn.contactPoint = incomingContactPoint)

/-- `Junction::Connection::findLaneLinkTarget(fromLane)`: linear scan of the
lane links, `LaneIDOpt::null()` when absent. -/
def Connection.findLaneLinkTarget (conn : Connection) (fromLane : ℤ) : Option ℤ :=
  match conn.laneLinks.find? (fun laneLink => laneLink.fromId = fromLane) with
  | some laneLink => some laneLink.toId
  | none => none

/-- `XodrMap` (the parts used by link validation). -/
structure XodrMap where
  roads : List Road
  junctions : List Junction
deriving DecidableEq, Repr

/-- `RoadContactPointKey`. -/
structure RoadContactPointKey where
  roadIdx : ℕ
  contactPoint : ContactPoint
deriving DecidableEq, Repr

/-- `LaneSectionContactPointKey`. -/
structure LaneSectionContactPointKey where
  roadIdx : ℕ
  laneSectionIdx : ℕ
  contactPoint : ContactPoint
deriving DecidableEq, Repr

/-- `JunctionConnectionKey`. -/
structure JunctionConnectionKey where
  junctionIdx : ℕ
  connectionIdx : ℕ
deriving DecidableEq, Repr

/-- `LaneID::sameSide`: the source tests `(id_ ^ b.id_) >= 0`, i.e. that the
two ids' sign bits agree. -/
def sameSide (a b : ℤ) : Bool :=
  decide (0 ≤ a) = decide (0 ≤ b)

/-- `LaneSection::Lane::hasLink(roadLinkType)`. -/
def Lane.hasLink (lane : Lane) : RoadLinkType → Bool
  | .PREDECESSOR => lane.predecessor.isSome
  | .SUCCESSOR => lane.successor.isSome

/-- `LaneSection::Lane::link(roadLinkType)` (dereferences the boost optional;
only called under `hasLink`). -/
def Lane.link (lane : Lane) : RoadLinkType → ℤ
  | .PREDECESSOR => lane.predecessor.getD 0
  | .SUCCESSOR => lane.successor.getD 0

/-- The structured link-validation errors
(src/xodr/validation/road_link_validation.h, lane_link_validation.h), each
carrying the keys the source stores on it; `aToBJunctionIdx` keeps the `-1`
sentinel of the source. -/
inductive LinkErr where
  | roadBackLinkNotSpecified (aKey bKey : RoadContactPointKey) (aToBJunctionIdx : ℤ)
  | roadLinkMisMatch (aKey bKey cKey : RoadContactPointKey) (aToBJunctionIdx : ℤ)
  | roadBackLinkNotSpecifiedInJunction (aKey bKey : RoadContactPointKey)
      (aToBJunctionIdx : ℤ) (backLinkJunctionIdx : ℕ)
  | directLinkToJunctionRoad (aKey bKey : RoadContactPointKey)
  | inconsistentJunctionPathDirections (aKey bKey : RoadContactPointKey)
      (aToBJunctionIdx : ℤ) (bToAJunctionIdx : ℕ)
  | laneBackLinkNotSpecified (aKey bKey : LaneSectionContactPointKey) (aLaneId bLaneId : ℤ)
  | laneLinkMisMatch (aKey bKey : LaneSectionContactPointKey) (aLaneId bLaneId cLaneId : ℤ)
  | laneLinkToCenterLane (aKey bKey : LaneSectionContactPointKey) (fromLaneId : ℤ)
  | laneLinkTargetOutOfRange (aKey bKey : LaneSectionContactPointKey) (aLaneId bLaneId : ℤ)
  | laneLinkOpposingDirections (aKey bKey : LaneSectionContactPointKey) (aLaneId bLaneId : ℤ)
deriving DecidableEq, Repr

/-- `validateLaneLinkInRange` (lane_link_validation.cpp): center-lane check,
then the direction check `sameSide(from, to) == roadsOpposingDirections`, then
the target-range check; returns the success flag and the appended errors. -/
def validateLaneLinkInRange (aKey bKey : LaneSectionContactPointKey)
    (fromLaneId toLaneId : ℤ) (roadsOpposingDirections : Bool)
    (toLaneIDsMin toLaneIDsMax : ℤ) : Bool × List LinkErr :=
  if toLaneId = 0 then
    (false, [.laneLinkToCenterLane aKey bKey fromLaneId])
  else if sameSide fromLaneId toLaneId = roadsOpposingDirections then
    (false, [.laneLinkOpposingDirections aKey bKey fromLaneId toLaneId])
  else if toLaneId < toLaneIDsMin ∨ toLaneId > toLaneIDsMax then
    (false, [.laneLinkTargetOutOfRange aKey bKey fromLaneId toLaneId])
  else
    (true, [])

/-- The per-lane body shared by `validateLaneLinks` and
`validateRoadRoadLaneLinks`: range validation, then the back link stored on
the target lane must be present and point back at the from lane. -/
def laneBackLinkCheck (toSection : LaneSection) (k1 k2 : LaneSectionContactPointKey)
    (opposing : Bool) (backLinkType : RoadLinkType) (toMin toMax : ℤ)
    (fromLaneId toLaneId : ℤ) : Bool × List LinkErr :=
  let rangeRes := validateLaneLinkInRange k1 k2 fromLaneId toLaneId opposing toMin toMax
  if rangeRes.1 then
    let bLane := toSection.laneById toLaneId
    if bLane.hasLink backLinkType then
      let backLinkId := bLane.link backLinkType
      if backLinkId ≠ fromLaneId then
        (false, rangeRes.2 ++ [.laneLinkMisMatch k1 k2 fromLaneId toLaneId backLinkId])
      else
        (true, rangeRes.2)
    else
      (false, rangeRes.2 ++ [.laneBackLinkNotSpecified k1 k2 fromLaneId toLaneId])
  else
    (false, rangeRes.2)

/-- The lane loop of `validateLaneLinks` / `validateRoadRoadLaneLinks` over the
from-section's lanes, accumulating the per-lane success flags and errors in
iteration order. -/
def laneLinksLoop (fromSection toSection : LaneSection)
    (k1 k2 : LaneSectionContactPointKey) (opposing : Bool)
    (linkType backLinkType : RoadLinkType) (toMin toMax : ℤ) :
    ℕ → List Lane → Bool × List LinkErr
  | _, [] => (true, [])
  | i, fromLane :: rest =>
    let restRes := laneLinksLoop fromSection toSection k1 k2 opposing linkType
      backLinkType toMin toMax (i + 1) rest
    if fromLane.hasLink linkType then
      let fromLaneId := fromSection.laneIndexToId (i : ℤ)
      let toLaneId := fromLane.link linkType
      let cur := laneBackLinkCheck toSection k1 k2 opposing backLinkType toMin toMax
        fromLaneId toLaneId
      (cur.1 && restRes.1, cur.2 ++ restRes.2)
    else
      restRes

/-- `validateLaneLinks(fromSection, toSection, fromKey, toKey, errors)`: the
roads are of opposing direction exactly when the two contact points are
equal. -/
def validateLaneLinks (fromSection toSection : LaneSection)
    (fromContactPointKey toContactPointKey : LaneSectionContactPointKey) :
    Bool × List LinkErr :=
  laneLinksLoop fromSection toSection fromContactPointKey toContactPointKey
    (decide (fromContactPointKey.contactPoint = toContactPointKey.contactPoint))
    (linkTypeForContactPoint fromContactPointKey.contactPoint)
    (linkTypeForContactPoint toContactPointKey.contactPoint)
    (-(toSection.numRightLanes)) toSection.numLeftLanes
    0 fromSection.lanes

/-- `fromRoadToLaneSectionContactPointKey`. -/
def fromRoadToLaneSectionContactPointKey (m : XodrMap) (k : RoadContactPointKey) :
    LaneSectionContactPointKey :=
  let road := m.roads.getD k.roadIdx default
  ⟨k.roadIdx, road.laneSectionIndexForContactPoint k.contactPoint, k.contactPoint⟩

/-- `laneSectionByKey`. -/
def laneSectionByKey (m : XodrMap) (k : LaneSectionContactPointKey) : LaneSection :=
  (m.roads.getD k.roadIdx default).laneSections.getD k.laneSectionIdx default

/-- `validateRoadRoadLaneLinks`. -/
def validateRoadRoadLaneLinks (m : XodrMap)
    (fromContactPointKey toContactPointKey : RoadContactPointKey) : Bool × List LinkErr :=
  let k1 := fromRoadToLaneSectionContactPointKey m fromContactPointKey
  let k2 := fromRoadToLaneSectionContactPointKey m toContactPointKey
  let fromSec := laneSectionByKey m k1
  let toSec := laneSectionByKey m k2
  laneLinksLoop fromSec toSec k1 k2
    (decide (fromContactPointKey.contactPoint = toContactPointKey.contactPoint))
    (linkTypeForContactPoint fromContactPointKey.contactPoint)
    (linkTypeForContactPoint toContactPointKey.contactPoint)
    (-(toSec.numRightLanes)) toSec.numLeftLanes
    0 fromSec.lanes

/-- The lane loop of `validateConnectingIncomingLaneLinks`: the back link is
looked up in the junction connection's lane-link list. -/
def connIncomingLoop (fromSection : LaneSection) (k1 k2 : LaneSectionContactPointKey)
    (opposing : Bool) (linkType : RoadLinkType) (toMin toMax : ℤ)
    (backLinkConnection : Connection) : ℕ → List Lane → Bool × List LinkErr
  | _, [] => (true, [])
  | i, fromLane :: rest =>
    let restRes := connIncomingLoop fromSection k1 k2 opposing linkType toMin toMax
      backLinkConnection (i + 1) rest
    if fromLane.hasLink linkType then
      let fromLaneId := fromSection.laneIndexToId (i : ℤ)
      let toLaneId := fromLane.link linkType
      let rangeRes := validateLaneLinkInRange k1 k2 fromLaneId toLaneId opposing toMin toMax
      let cur : Bool × List LinkErr :=
        if rangeRes.1 then
          match backLinkConnection.findLaneLinkTarget toLaneId with
          | some backLinkId =>
            if backLinkId ≠ fromLaneId then
              (false, rangeRes.2 ++ [.laneLinkMisMatch k1 k2 fromLaneId toLaneId backLinkId])
            else
              (true, rangeRes.2)
          | none =>
            (false, rangeRes.2 ++ [.laneBackLinkNotSpecified k1 k2 fromLaneId toLaneId])
        else
          (true, rangeRes.2)
      (cur.1 && restRes.1, cur.2 ++ restRes.2)
    else
      restRes

/-- `validateConnectingIncomingLaneLinks`. -/
def validateConnectingIncomingLaneLinks (m : XodrMap)
    (fromContactPointKey toContactPointKey : RoadContactPointKey)
    (backLinkConnection : Connection) : Bool × List LinkErr :=
  let k1 := fromRoadToLaneSectionContactPointKey m fromContactPointKey
  let k2 := fromRoadToLaneSectionContactPointKey m toContactPointKey
  let fromSec := laneSectionByKey m k1
  let toSec := laneSectionByKey m k2
  connIncomingLoop fromSec k1 k2
    (decide (fromContactPointKey.contactPoint = toContactPointKey.contactPoint))
    (linkTypeForContactPoint fromContactPointKey.contactPoint)
    (-(toSec.numRightLanes)) toSec.numLeftLanes backLinkConnection
    0 fromSec.lanes

/-- The lane loop of `validateConnectingOutgoingLaneLinks`: only the range
validation is performed per linked lane. -/
def connOutgoingLoop (fromSection : LaneSection) (k1 k2 : LaneSectionContactPointKey)
    (opposing : Bool) (linkType : RoadLinkType) (toMin toMax : ℤ) :
    ℕ → List Lane → Bool × List LinkErr
  | _, [] => (true, [])
  | i, fromLane :: rest =>
    let restRes := connOutgoingLoop fromSection k1 k2 opposing linkType toMin toMax
      (i + 1) rest
    if fromLane.hasLink linkType then
      let fromLaneId := fromSection.laneIndexToId (i : ℤ)
      let toLaneId := fromLane.link linkType
      let cur := validateLaneLinkInRange k1 k2 fromLaneId toLaneId opposing toMin toMax
      (cur.1 && restRes.1, cur.2 ++ restRes.2)
    else
      restRes

/-- `validateConnectingOutgoingLaneLinks`. -/
def validateConnectingOutgoingLaneLinks (m : XodrMap)
    (fromContactPointKey toContactPointKey : RoadContactPointKey) : Bool × List LinkErr :=
  let k1 := fromRoadToLaneSectionContactPointKey m fromContactPointKey
  let k2 := fromRoadToLaneSectionContactPointKey m toContactPointKey
  let fromSec := laneSectionByKey m k1
  let toSec := laneSectionByKey m k2
  connOutgoingLoop fromSec k1 k2
    (decide (fromContactPointKey.contactPoint = toContactPointKey.contactPoint))
    (linkTypeForContactPoint fromContactPointKey.contactPoint)
    (-(toSec.numRightLanes)) toSec.numLeftLanes
    0 fromSec.lanes

/-- The per-lane-link body of `validateIncomingConnectingLaneLinks`: the two
center-lane checks (if / else-if), the two range checks, then — for links that
passed and don't involve the center lane — the direction check and the back
link stored on the target lane. -/
def incomingConnectingLaneLinkCheck (toSection : LaneSection)
    (k1 k2 : LaneSectionContactPointKey) (opposing : Bool)
    (backLinkType : RoadLinkType) (fromMin fromMax toMin toMax : ℤ)
    (laneLink : LaneLink) : Bool × List LinkErr :=
  let fromLaneId := laneLink.fromId
  let toLaneId := laneLink.toId
  let centerErrs : List LinkErr :=
    if fromLaneId ≠ 0 ∧ toLaneId = 0 then [.laneLinkToCenterLane k1 k2 fromLaneId]
    else if fromLaneId = 0 ∧ toLaneId ≠ 0 then [.laneLinkToCenterLane k2 k1 toLaneId]
    else []
  let toRangeErrs : List LinkErr :=
    if toLaneId < toMin ∨ toLaneId > toMax then
      [.laneLinkTargetOutOfRange k1 k2 fromLaneId toLaneId]
    else []
  let fromRangeErrs : List LinkErr :=
    if fromLaneId < fromMin ∨ fromLaneId > fromMax then
      [.laneLinkTargetOutOfRange k2 k1 toLaneId fromLaneId]
    else []
  let errs := centerErrs ++ toRangeErrs ++ fromRangeErrs
  if errs ≠ [] then
    (false, errs)
  else if fromLaneId = 0 ∨ toLaneId = 0 then
    (true, [])
  else if sameSide fromLaneId toLaneId = opposing then
    (false, [.laneLinkOpposingDirections k1 k2 fromLaneId toLaneId])
  else
    let bLane := toSection.laneById toLaneId
    if bLane.hasLink backLinkType then
      let backLinkId := bLane.link backLinkType
      if backLinkId ≠ fromLaneId then
        (false, [.laneLinkMisMatch k1 k2 fromLaneId toLaneId backLinkId])
      else
        (true, [])
    else
      (false, [.laneBackLinkNotSpecified k1 k2 fromLaneId toLaneId])

/-- The lane-link loop of `validateIncomingConnectingLaneLinks`. -/
def incomingConnectingLoop (toSection : LaneSection)
    (k1 k2 : LaneSectionContactPointKey) (opposing : Bool)
    (backLinkType : RoadLinkType) (fromMin fromMax toMin toMax : ℤ) :
    List LaneLink → Bool × List LinkErr
  | [] => (true, [])
  | laneLink :: rest =>
    let cur := incomingConnectingLaneLinkCheck toSection k1 k2 opposing backLinkType
      fromMin fromMax toMin toMax laneLink
    let restRes := incomingConnectingLoop toSection k1 k2 opposing backLinkType
      fromMin fromMax toMin toMax rest
    (cur.1 && restRes.1, cur.2 ++ restRes.2)

/-- `validateIncomingConnectingLaneLinks`. -/
def validateIncomingConnectingLaneLinks (m : XodrMap)
    (fromContactPointKey toContactPointKey : RoadContactPointKey)
    (connectionKey : JunctionConnectionKey) : Bool × List LinkErr :=
  let k1 := fromRoadToLaneSectionContactPointKey m fromContactPointKey
  let k2 := fromRoadToLaneSectionContactPointKey m toContactPointKey
  let fromSec := laneSectionByKey m k1
  let toSec := laneSectionByKey m k2
  let connection := ((m.junctions.getD connectionKey.junctionIdx default).connections).getD
    connectionKey.connectionIdx default
  incomingConnectingLoop toSec k1 k2
    (decide (fromContactPointKey.contactPoint = toContactPointKey.contactPoint))
    (linkTypeForContactPoint toContactPointKey.contactPoint)
    (-(fromSec.numRightLanes)) fromSec.numLeftLanes
    (-(toSec.numRightLanes)) toSec.numLeftLanes
    connection.laneLinks

/-- The per-lane-link body of `validateConnectingConnectingLaneLinks`: only
the center-lane and the two range checks are performed, without early exit. -/
def connectingConnectingLaneLinkCheck (k1 k2 : LaneSectionContactPointKey)
    (fromMin fromMax toMin toMax : ℤ) (laneLink : LaneLink) : Bool × List LinkErr :=
  let fromLaneId := laneLink.fromId
  let toLaneId := laneLink.toId
  let centerErrs : List LinkErr :=
    if fromLaneId ≠ 0 ∧ toLaneId = 0 then [.laneLinkToCenterLane k1 k2 fromLaneId]
    else if fromLaneId = 0 ∧ toLaneId ≠ 0 then [.laneLinkToCenterLane k2 k1 toLaneId]
    else []
  let fromRangeErrs : List LinkErr :=
    if fromLaneId < fromMin ∨ fromLaneId > fromMax then
      [.laneLinkTargetOutOfRange k2 k1 toLaneId fromLaneId]
    else []
  let toRangeErrs : List LinkErr :=
    if toLaneId < toMin ∨ toLaneId > toMax then
      [.laneLinkTargetOutOfRange k1 k2 fromLaneId toLaneId]
    else []
  let errs := centerErrs ++ fromRangeErrs ++ toRangeErrs
  (errs.isEmpty, errs)

/-- `validateConnectingConnectingLaneLinks`. -/
def validateConnectingConnectingLaneLinks (m : XodrMap)
    (fromContactPointKey toContactPointKey : RoadContactPointKey)
    (linkConnection : Connection) : Bool × List LinkErr :=
  let k1 := fromRoadToLaneSectionContactPointKey m fromContactPointKey
  let k2 := fromRoadToLaneSectionContactPointKey m toContactPointKey
  let fromSec := laneSectionByKey m k1
  let toSec := laneSectionByKey m k2
  (linkConnection.laneLinks.map (connectingConnectingLaneLinkCheck k1 k2
      (-(fromSec.numRightLanes)) fromSec.numLeftLanes
      (-(toSec.numRightLanes)) toSec.numLeftLanes)).foldr
    (fun cur acc => (cur.1 && acc.1, cur.2 ++ acc.2)) (true, [])

/-- `roadLinkForRoadContactPoint` (road_link_validation.cpp). -/
def roadLinkForRoadContactPoint (m : XodrMap) (key : RoadContactPointKey) : RoadLink :=
  (m.roads.getD key.roadIdx default).roadLink (linkTypeForContactPoint key.contactPoint)

/-- `validateRoadRoadLink`: the back link at the linked road's contact point
must be a road link naming the from contact point; a junction back link is
accepted when it holds a connection back (incoming or outgoing). -/
def validateRoadRoadLink (m : XodrMap)
    (fromContactPointKey toContactPointKey : RoadContactPointKey) : Bool × List LinkErr :=
  match roadLinkForRoadContactPoint m toContactPointKey with
  | .notSpecified =>
    (false, [.roadBackLinkNotSpecified fromContactPointKey toContactPointKey (-1)])
  | .road elementIdx contactPoint =>
    if elementIdx ≠ fromContactPointKey.roadIdx ∨
        contactPoint ≠ fromContactPointKey.contactPoint then
      (false, [.roadLinkMisMatch fromContactPointKey toContactPointKey
        ⟨elementIdx, contactPoint⟩ (-1)])
    else
      validateRoadRoadLaneLinks m fromContactPointKey toContactPointKey
  | .junction backLinkJunctionIdx =>
    let backLinkJunction := m.junctions.getD backLinkJunctionIdx default
    match backLinkJunction.findConnection toContactPointKey.roadIdx
        fromContactPointKey.roadIdx fromContactPointKey.contactPoint with
    | some connection =>
      validateConnectingIncomingLaneLinks m fromContactPointKey toContactPointKey connection
    | none =>
      if backLinkJunction.hasOutgoingConnection fromContactPointKey.roadIdx
          fromContactPointKey.contactPoint then
        validateConnectingOutgoingLaneLinks m fromContactPointKey toContactPointKey
      else
        (false, [.roadBackLinkNotSpecifiedInJunction fromContactPointKey toContactPointKey
          (-1) backLinkJunctionIdx])

/-- `validateIncomingConnectingLink`: like `validateRoadRoadLink`, but the
forward link goes through a junction connection; a junction back link holding
the incoming connection is the inconsistent-path-directions error. -/
def validateIncomingConnectingLink (m : XodrMap)
    (fromContactPointKey toContactPointKey : RoadContactPointKey)
    (connectionKey : JunctionConnectionKey) : Bool × List LinkErr :=
  let conn := ((m.junctions.getD connectionKey.junctionIdx default).connections).getD
    connectionKey.connectionIdx default
  match roadLinkForRoadContactPoint m toContactPointKey with
  | .notSpecified =>
    (false, [.roadBackLinkNotSpecified fromContactPointKey toContactPointKey
      (connectionKey.junctionIdx : ℤ)])
  | .road elementIdx contactPoint =>
    if elementIdx ≠ fromContactPointKey.roadIdx ∨
        contactPoint ≠ fromContactPointKey.contactPoint then
      (false, [.roadLinkMisMatch fromContactPointKey toContactPointKey
        ⟨elementIdx, contactPoint⟩ (connectionKey.junctionIdx : ℤ)])
    else
      validateIncomingConnectingLaneLinks m fromContactPointKey toContactPointKey connectionKey
  | .junction backLinkJunctionIdx =>
    let backLinkJunction := m.junctions.getD backLinkJunctionIdx default
    if backLinkJunction.hasConnection toContactPointKey.roadIdx
        fromContactPointKey.roadIdx fromContactPointKey.contactPoint then
      (false, [.inconsistentJunctionPathDirections fromContactPointKey toContactPointKey
        (connectionKey.junctionIdx : ℤ) backLinkJunctionIdx])
    else if backLinkJunction.hasOutgoingConnection fromContactPointKey.roadIdx
        fromContactPointKey.contactPoint then
      validateConnectingConnectingLaneLinks m fromContactPointKey toContactPointKey conn
    else
      (false, [.roadBackLinkNotSpecifiedInJunction fromContactPointKey toContactPointKey
        (connectionKey.junctionIdx : ℤ) backLinkJunctionIdx])

/-- The connection loop of `validateLinksIteration` for a junction link:
connections whose incoming road is not the linking road are skipped. -/
def junctionConnsLoop (m : XodrMap) (key : RoadContactPointKey) (junctionIdx : ℕ) :
    ℕ → List Connection → Bool × List LinkErr
  | _, [] => (true, [])
  | i, conn :: rest =>
    let restRes := junctionConnsLoop m key junctionIdx (i + 1) rest
    if conn.incomingRoad = key.roadIdx then
      let cur := validateIncomingConnectingLink m key
        ⟨conn.connectingRoad, conn.contactPoint⟩ ⟨junctionIdx, i⟩
      (cur.1 && restRes.1, cur.2 ++ restRes.2)
    else
      restRes

/-- `validateLinksIteration`: dispatch on the element type of the road's link
at the given contact point; a direct road link to a road belonging to a
junction is the direct-link error. -/
def validateLinksIteration (m : XodrMap) (contactPointKey : RoadContactPointKey) :
    Bool × List LinkErr :=
  match roadLinkForRoadContactPoint m contactPointKey with
  | .notSpecified => (true, [])
  | .road elementIdx contactPoint =>
    let toContactPointKey : RoadContactPointKey := ⟨elementIdx, contactPoint⟩
    let toRoad := m.roads.getD elementIdx default
    match toRoad.junctionRef with
    | some _ => (false, [.directLinkToJunctionRoad contactPointKey toContactPointKey])
    | none => validateRoadRoadLink m contactPointKey toContactPointKey
  | .junction junctionIdx =>
    junctionConnsLoop m contactPointKey junctionIdx 0
      (m.junctions.getD junctionIdx default).connections

/-- The adjacent-section loop of `validateRoadInternalLaneLinks`, validating
each `END → START` pair in both directions. -/
def internalSectionsLoop (roadIdx : ℕ) : ℕ → List LaneSection → Bool × List LinkErr
  | _, [] => (true, [])
  | _, [_] => (true, [])
  | i, s1 :: s2 :: rest =>
    let key1 : LaneSectionContactPointKey := ⟨roadIdx, i, .END⟩
    let key2 : LaneSectionContactPointKey := ⟨roadIdx, i + 1, .START⟩
    let r1 := validateLaneLinks s1 s2 key1 key2
    let r2 := validateLaneLinks s2 s1 key2 key1
    let restRes := internalSectionsLoop roadIdx (i + 1) (s2 :: rest)
    (r1.1 && r2.1 && restRes.1, r1.2 ++ r2.2 ++ restRes.2)

/-- `validateRoadInternalLaneLinks`. -/
def validateRoadInternalLaneLinks (m : XodrMap) (roadIdx : ℕ) : Bool × List LinkErr :=
  internalSectionsLoop roadIdx 0 ((m.roads.getD roadIdx default).laneSections)

/-- The road loop of `validateLinks`. -/
def roadsValidateLoop (m : XodrMap) : List ℕ → Bool × List LinkErr
  | [] => (true, [])
  | i :: rest =>
    let a := validateRoadInternalLaneLinks m i
    let b := validateLinksIteration m ⟨i, .START⟩
    let c := validateLinksIteration m ⟨i, .END⟩
    let restRes := roadsValidateLoop m rest
    (a.1 && b.1 && c.1 && restRes.1, a.2 ++ b.2 ++ c.2 ++ restRes.2)

/-- `validateLinks(map, errors)`: validates every road's internal lane links
and both contact points of every road. -/
def validateLinks (m : XodrMap) : Bool × List LinkErr :=
  roadsValidateLoop m (List.range m.roads.length)

/-! ## Declarative XML attribute parsers
(src/xodr/xml/xml_attribute_parsers.h, xml_attribute_parsers_impl.h,
xml_parse_result.h / .cpp)

Attribute names and values are lexed strings; the embedding models them as
atoms (ℕ) with the same ordered-comparison interface the binary search uses.
The per-entry binding (`parseFunc_`) acts on the result value and models a
thrown exception as `none`; the per-entry parse-failure arguments
(`ParseFailArgs`) are modelled as a stored failure-class atom. -/

/-- `XmlReader::Attrib`: an attribute name and value. -/
structure Attrib where
  name : ℕ
  value : ℕ
deriving DecidableEq, Repr

/-- One finalized entry of `XmlAttributeParsers<T>::parsers_`. -/
structure AttrEntry (V : Type) where
  name : ℕ
  required : Bool
  parseFunc : ℕ → V → Option V
  failClass : ℕ
  setDefaultFunc : V → V

instance {V : Type} [Inhabited V] : Inhabited (AttrEntry V) :=
  ⟨⟨0, true, fun _ _ => none, 0, id⟩⟩

/-- `XmlParseError::Category`. -/
inductive XmlCat where
  | missingAttribute
  | unexpectedAttribute
  | missingChildElement
  | unexpectedChildElement
  | duplicateChildElement
  | invalidAttributeValue
deriving DecidableEq, Repr

/-- `XmlParseError::isFatal`: every category except the two unexpected-…
warnings is fatal. -/
def XmlCat.isFatal (c : XmlCat) : Bool :=
  c ≠ XmlCat.unexpectedAttribute ∧ c ≠ XmlCat.unexpectedChildElement

/-- A recorded error: the `XmlParseError` triple plus the per-entry failure
class attached by `setErrorFunc_` (absent for the plain unexpected-attribute
warning). -/
structure XmlErr where
  category : XmlCat
  name : ℕ
  value : ℕ
  failClass : Option ℕ
deriving DecidableEq, Repr

/-- `XmlParseResult`: the value built so far plus the accumulated errors. -/
structure ParseState (V : Type) where
  value : V
  errors : List XmlErr

/-- The binary search of `XmlAttributeParsers<T>::parse` over the sorted entry
list; the search range is `[min, max)` and shrinks strictly each iteration, so
`entries.length + 1` rounds of fuel always suffice. -/
def findEntryAux {V : Type} [Inhabited V] (entries : List (AttrEntry V)) (attribName : ℕ) :
    ℕ → ℕ → ℕ → Option ℕ
  | 0, _, _ => none
  | fuel + 1, lo, hi =>
    if lo = hi then none
    else
      let mid := (lo + hi) / 2
      let entryName := (entries.getD mid default).name
      if entryName < attribName then findEntryAux entries attribName fuel (mid + 1) hi
      else if attribName < entryName then findEntryAux entries attribName fuel lo mid
      else some mid

/-- The entry lookup for one attribute (`min = 0`, `max = parsers_.size()`). -/
def findEntry {V : Type} [Inhabited V] (entries : List (AttrEntry V)) (attribName : ℕ) :
    Option ℕ :=
  findEntryAux entries attribName (entries.length + 1) 0 entries.length

/-- The attribute loop of `XmlAttributeParsers<T>::parse`: unknown attributes
append a non-fatal `UNEXPECTED_ATTRIBUTE` error; known attributes are marked
visited and their binding is invoked, a throw appending an
`INVALID_ATTRIBUTE_VALUE` error that carries the entry's failure class. -/
def parseAttribsLoop {V : Type} [Inhabited V] (elemName : ℕ) (entries : List (AttrEntry V)) :
    List Attrib → ParseState V → List ℕ → ParseState V × List ℕ
  | [], st, visited => (st, visited)
  | attrib :: rest, st, visited =>
    match findEntry entries attrib.name with
    | none =>
      parseAttribsLoop elemName entries rest
        ⟨st.value, st.errors ++ [⟨.unexpectedAttribute, elemName, attrib.value, none⟩]⟩
        visited
    | some mid =>
      let entry := entries.getD mid default
      match entry.parseFunc attrib.value st.value with
      | some value2 =>
        parseAttribsLoop elemName entries rest ⟨value2, st.errors⟩ (visited ++ [mid])
      | none =>
        parseAttribsLoop elemName entries rest
          ⟨st.value, st.errors ++
            [⟨.invalidAttributeValue, entry.name, attrib.value, some entry.failClass⟩]⟩
          (visited ++ [mid])

/-- The post-loop sweep of `XmlAttributeParsers<T>::parse` over the entry
indices: an unvisited required entry appends a `MISSING_ATTRIBUTE` error; an
unvisited optional entry has its default setter invoked on the result value.
(The `visitedMask != fullMask` guard of the source is a pure optimization:
when everything was visited the sweep does nothing.) -/
def applyUnvisited {V : Type} [Inhabited V] (elemName : ℕ) (entries : List (AttrEntry V))
    (visited : List ℕ) : List ℕ → ParseState V → ParseState V
  | [], st => st
  | i :: rest, st =>
    if i ∈ visited then applyUnvisited elemName entries visited rest st
    else
      let entry := entries.getD i default
      if entry.required then
        applyUnvisited elemName entries visited rest
          ⟨st.value, st.errors ++ [⟨.missingAttribute, elemName, entry.name, some entry.failClass⟩]⟩
      else
        applyUnvisited elemName entries visited rest ⟨entry.setDefaultFunc st.value, st.errors⟩

/-- `XmlAttributeParsers<T>::parse(xml, result)` over a finalized (sorted)
entry list. -/
def xmlAttributeParse {V : Type} [Inhabited V] (elemName : ℕ) (entries : List (AttrEntry V))
    (attribs : List Attrib) (st : ParseState V) : ParseState V :=
  let loopRes := parseAttribsLoop elemName entries attribs st []
  applyUnvisited elemName entries loopRes.2 (List.range entries.length) loopRes.1

/-! ## Comparison definitions and concrete instances -/

instance : Inhabited Vertex := ⟨⟨0, (0, 0), 0⟩⟩

instance : Inhabited Geometry := ⟨.line default 0⟩

/-- The s-coordinates shared by every geometry variant's `tessellate`: `num`
(plus one if the end point is included) values spaced `stepSize` apart from
`startS`. -/
def segSCoords (startS endS : ℚ) (includeEndPt : Bool) : List ℚ :=
  (List.range (tessCount startS endS includeEndPt)).map
    (fun (i : ℕ) => startS + (i : ℚ) * tessStep startS endS)

/-- The total end s-coordinate of a geometry list: the final geometry's start
plus its length (matching the `geomEndS` computation for the last geometry in
`ReferenceLine::tessellate`). -/
def geomsEndS : List Geometry → ℚ
  | [] => 0
  | [g] => g.startVertex.sCoord + g.length
  | _ :: g2 :: rest => geomsEndS (g2 :: rest)

/-- The reciprocal-link property claimed for a validated map: the linked road's
own link at the linked contact point names the source contact point, or the
junction it links to holds a connection leading back to the source road. -/
def reciprocalRoadLink (m : XodrMap) (aKey bKey : RoadContactPointKey) : Prop :=
  roadLinkForRoadContactPoint m bKey = .road aKey.roadIdx aKey.contactPoint
  ∨ ∃ jIdx : ℕ, roadLinkForRoadContactPoint m bKey = .junction jIdx ∧
      ((m.junctions.getD jIdx default).hasConnection bKey.roadIdx aKey.roadIdx
          aKey.contactPoint = true
        ∨ (m.junctions.getD jIdx default).hasOutgoingConnection aKey.roadIdx
            aKey.contactPoint = true)

/-- The width polynomial described by the specification for
`Lane::widthAtSCoord`: the last `WidthPoly3` whose `sOffset` is at most `s`,
falling back to the first entry when `s` precedes every `sOffset`. -/
def widthPolyForSCoordSpec (widthPoly3s : List WidthPoly3) (s : ℚ) : Option WidthPoly3 :=
  match (widthPoly3s.filter (fun p => decide (p.sOffset ≤ s))).getLast? with
  | some p => some p
  | none => widthPoly3s.head?

/-- A concrete instantiation of the external math primitives, agreeing with
the analytic functions at angle 0 (`cos 0 = 1`, `sin 0 = 0`). -/
def stdFns : MathFns :=
  { cos := fun _ => 1
    sin := fun _ => 0
    atan := fun _ => 0
    atan2 := fun _ _ => 0
    odrSpiral := fun _ _ => (0, 0, 0) }

/-- A lane section with a single left lane of constant width `w` and a single
right lane of constant width 0, starting at `s = 0` on a road of length `len`
(the configuration of the boundary-tessellation law). -/
def singleLeftLaneSection (w len : ℚ) : LaneSection :=
  { startS := 0
    endS := len
    numLeftLanes := 1
    lanes :=
      [ { id := 1, widthPoly3s := [⟨0, ⟨w, 0, 0, 0⟩⟩], predecessor := none, successor := none },
        { id := -1, widthPoly3s := [⟨0, ⟨0, 0, 0, 0⟩⟩], predecessor := none, successor := none } ] }

/-- A concrete two-entry attribute-parser table over ℕ values: a required
attribute named 1 whose binding succeeds and an optional attribute named 3
whose binding throws, with default setter `+ 100`. -/
def witnessEntries : List (AttrEntry ℕ) :=
  [⟨1, true, fun _ v => some v, 7, id⟩,
   ⟨3, false, fun _ _ => none, 9, fun v => v + 100⟩]

/-- A single unregistered attribute (name 5, value 11). -/
def witnessAttribs : List Attrib := [⟨5, 11⟩]

/-- A two-road map whose roads are symmetrically linked end-to-start (used to
exercise the link validator on a concrete input). -/
def twoRoadMap : XodrMap :=
  { roads :=
      [ { junctionRef := none
          predecessor := .notSpecified
          successor := .road 1 .START
          laneSections := [⟨0, 1, 0, []⟩] },
        { junctionRef := none
          predecessor := .road 0 .END
          successor := .notSpecified
          laneSections := [⟨0, 1, 0, []⟩] } ]
    junctions := [] }

/-! ## Theorems -/

/-- C7: the claim `translate(Δ).eval(t) = eval(t+Δ)` (within `1e-3`) fails on
the code: for `f(t) = t` and `Δ = 1`, `f.translate(1).eval(0) = -1` while
`f.eval(0+1) = 1`, a deviation of 2. -/
theorem poly3_translate_claim_counterexample :
    (Poly3.translate ⟨0, 1, 0, 0⟩ 1).eval 0 = -1
    ∧ Poly3.eval ⟨0, 1, 0, 0⟩ (0 + 1) = 1
    ∧ ¬(|(Poly3.translate ⟨0, 1, 0, 0⟩ 1).eval 0 - Poly3.eval ⟨0, 1, 0, 0⟩ (0 + 1)| ≤ 1 / 1000) := by
  refine ⟨by norm_num [Poly3.translate, Poly3.eval], by norm_num [Poly3.eval], ?_⟩
  norm_num [Poly3.translate, Poly3.eval]

/-- C7 (amended): for every `Poly3 p`, offset `Δ` and input `t`,
`p.translate(Δ).eval(t)` equals `p.eval(t - Δ)` exactly (the substitution the
coefficient formulas of `Poly3::translate` implement, and the behaviour the
repository's own `testTranslatePoly3` test checks). -/
theorem poly3_translate_eval (p : Poly3) (offset t : ℚ) :
    (p.translate offset).eval t = p.eval (t - offset) := by
  simp only [Poly3.translate, Poly3.eval]
  ring

/-- C3: `laneIndexToId` and `laneIdToIndex` are mutually inverse bijections
between the lane indices `[0, lanes.len)` and the lane ids
`[-numRightLanes, +numLeftLanes] \\ {0}`. -/
theorem lane_id_index_bijection (ls : LaneSection)
    (h0 : 0 ≤ ls.numLeftLanes) (h1 : ls.numLeftLanes ≤ (ls.lanes.length : ℤ)) :
    (∀ i : ℤ, 0 ≤ i → i < (ls.lanes.length : ℤ) →
      ls.laneIdToIndex (ls.laneIndexToId i) = i
      ∧ ls.laneIndexToId i ≠ 0
      ∧ -ls.numRightLanes ≤ ls.laneIndexToId i
      ∧ ls.laneIndexToId i ≤ ls.numLeftLanes)
    ∧ (∀ id : ℤ, id ≠ 0 → -ls.numRightLanes ≤ id → id ≤ ls.numLeftLanes →
      ls.laneIndexToId (ls.laneIdToIndex id) = id
      ∧ 0 ≤ ls.laneIdToIndex id
      ∧ ls.laneIdToIndex id < (ls.lanes.length : ℤ)) := by
  simp only [LaneSection.laneIdToIndex, LaneSection.laneIndexToId, LaneSection.numRightLanes]
  constructor
  · intro i hi0 hi1
    split_ifs <;> omega
  · intro id hid hlo hhi
    split_ifs <;> omega

/-- C3 witness: the bijection at a section with 3 left and 3 right lanes. -/
theorem lane_id_index_bijection_witness :
    ((0 : ℤ) ≤ (3 : ℤ)
      ∧ (3 : ℤ) ≤ ((List.replicate 6 (default : Lane)).length : ℤ))
    ∧ ((∀ i : ℤ, 0 ≤ i → i < (((⟨0, 1, 3, List.replicate 6 default⟩ : LaneSection)).lanes.length : ℤ) →
        (⟨0, 1, 3, List.replicate 6 default⟩ : LaneSection).laneIdToIndex
          ((⟨0, 1, 3, List.replicate 6 default⟩ : LaneSection).laneIndexToId i) = i
        ∧ (⟨0, 1, 3, List.replicate 6 default⟩ : LaneSection).laneIndexToId i ≠ 0
        ∧ -(⟨0, 1, 3, List.replicate 6 default⟩ : LaneSection).numRightLanes ≤
            (⟨0, 1, 3, List.replicate 6 default⟩ : LaneSection).laneIndexToId i
        ∧ (⟨0, 1, 3, List.replicate 6 default⟩ : LaneSection).laneIndexToId i ≤
            (⟨0, 1, 3, List.replicate 6 default⟩ : LaneSection).numLeftLanes)
      ∧ (∀ id : ℤ, id ≠ 0 →
          -(⟨0, 1, 3, List.replicate 6 default⟩ : LaneSection).numRightLanes ≤ id →
          id ≤ (⟨0, 1, 3, List.replicate 6 default⟩ : LaneSection).numLeftLanes →
          (⟨0, 1, 3, List.replicate 6 default⟩ : LaneSection).laneIndexToId
            ((⟨0, 1, 3, List.replicate 6 default⟩ : LaneSection).laneIdToIndex id) = id
          ∧ 0 ≤ (⟨0, 1, 3, List.replicate 6 default⟩ : LaneSection).laneIdToIndex id
          ∧ (⟨0, 1, 3, List.replicate 6 default⟩ : LaneSection).laneIdToIndex id <
              ((⟨0, 1, 3, List.replicate 6 default⟩ : LaneSection).lanes.length : ℤ))) :=
  ⟨⟨by decide, by decide⟩,
    lane_id_index_bijection ⟨0, 1, 3, List.replicate 6 default⟩ (by decide) (by decide)⟩

/-- C8: the near-zero-discriminant branch of `extremeValueInInterval` evaluates
the double root of the derivative without checking that it lies in the
interval: for `f(t) = t³` on `[-2, -1]`, `maxValueInInterval` returns
`f(0) = 0`, strictly greater than every value `f` takes on `[-2, -1]` — the
code contradicts its own documented contract ("the maximum value this
polynomial takes in `[startT, endT]`"). -/
theorem max_value_in_interval_double_root_bug (sqrtFn : ℚ → ℚ) :
    Poly3.maxValueInInterval sqrtFn ⟨0, 0, 0, 1⟩ (-2) (-1) = 0
    ∧ ∀ t : ℚ, -2 ≤ t → t ≤ -1 →
        Poly3.eval ⟨0, 0, 0, 1⟩ t < Poly3.maxValueInInterval sqrtFn ⟨0, 0, 0, 1⟩ (-2) (-1) := by
  have hmax : Poly3.maxValueInInterval sqrtFn ⟨0, 0, 0, 1⟩ (-2) (-1) = 0 := by
    simp only [Poly3.maxValueInInterval, extremeValueInInterval, maxBy, Poly3.eval, extremeEpsilon]
    norm_num
  refine ⟨hmax, ?_⟩
  intro t h1 h2
  rw [hmax]
  have ht : t < 0 := by linarith
  have hpos : 0 < -t * (-t * -t) := by
    have h3 : 0 < -t := by linarith
    exact mul_pos h3 (mul_pos h3 h3)
  simp only [Poly3.eval]
  nlinarith

/-- C8 witness: the buggy optimum and the true bound evaluated at `t = -2`. -/
theorem max_value_in_interval_double_root_bug_witness :
    Poly3.maxValueInInterval (fun _ => 0) ⟨0, 0, 0, 1⟩ (-2) (-1) = 0
    ∧ Poly3.eval ⟨0, 0, 0, 1⟩ (-2) <
        Poly3.maxValueInInterval (fun _ => 0) ⟨0, 0, 0, 1⟩ (-2) (-1) :=
  ⟨(max_value_in_interval_double_root_bug (fun _ => 0)).1,
    (max_value_in_interval_double_root_bug (fun _ => 0)).2 (-2) (by norm_num) (by norm_num)⟩

/-! ### Tessellation step arithmetic -/

theorem tessNum_eq_ceil (startS endS : ℚ) : tessNum startS endS = ⌈endS - startS⌉ := by
  simp [tessNum, numVerticesPerMeter]

theorem tessNum_pos {startS endS : ℚ} (h : startS < endS) : 0 < tessNum startS endS := by
  rw [tessNum_eq_ceil]
  exact Int.ceil_pos.mpr (by linarith)

theorem tessStep_pos {startS endS : ℚ} (h : startS < endS) : 0 < tessStep startS endS := by
  have hn := tessNum_pos h
  exact div_pos (by linarith) (by exact_mod_cast hn)

theorem tessNum_mul_tessStep {startS endS : ℚ} (h : startS < endS) :
    (tessNum startS endS : ℚ) * tessStep startS endS = endS - startS := by
  have hn := tessNum_pos h
  have hn' : (tessNum startS endS : ℚ) ≠ 0 := by
    exact_mod_cast hn.ne'
  rw [tessStep, mul_div_cancel₀ _ hn']

theorem geom_tessellate_append (fns : MathFns) (g : Geometry) (out : List Vertex)
    (startS endS : ℚ) (includeEndPt : Bool) :
    Geometry.tessellate fns g out startS endS includeEndPt
      = out ++ Geometry.tessellate fns g [] startS endS includeEndPt := by
  cases g <;>
    simp [Geometry.tessellate, lineTessellate, arcTessellate, spiralTessellate,
      poly3GeomTessellate, paramPoly3Tessellate]

theorem geom_tessellate_map_sCoord (fns : MathFns) (g : Geometry)
    (startS endS : ℚ) (includeEndPt : Bool) :
    (Geometry.tessellate fns g [] startS endS includeEndPt).map Vertex.sCoord
      = segSCoords startS endS includeEndPt := by
  cases g <;>
    simp [Geometry.tessellate, lineTessellate, arcTessellate, spiralTessellate,
      poly3GeomTessellate, paramPoly3Tessellate, segSCoords, List.map_map, Function.comp]

theorem geom_tessellate_length (fns : MathFns) (g : Geometry)
    (startS endS : ℚ) (includeEndPt : Bool) :
    (Geometry.tessellate fns g [] startS endS includeEndPt).length
      = tessCount startS endS includeEndPt := by
  have h := congrArg List.length (geom_tessellate_map_sCoord fns g startS endS includeEndPt)
  rw [List.length_map] at h
  rw [h]
  simp only [segSCoords, List.length_map, List.length_range]

theorem segSCoords_getElem (startS endS : ℚ) (includeEndPt : Bool) (i : ℕ)
    (h : i < (segSCoords startS endS includeEndPt).length) :
    (segSCoords startS endS includeEndPt)[i]
      = startS + (i : ℚ) * tessStep startS endS := by
  simp only [segSCoords, List.getElem_map, List.getElem_range]

/-- C1: every geometry variant's `tessellate` appends exactly
`n = ⌈endS - startS⌉` vertices (`n + 1` with the end point included), the i-th
appended vertex having `sCoord = startS + i·(endS - startS)/n`, leaving the
vertices already present untouched. -/
theorem geometry_tessellate_appends (fns : MathFns) (g : Geometry) (out : List Vertex)
    (startS endS : ℚ) (includeEndPt : Bool)
    (h1 : g.startVertex.sCoord ≤ startS) (h2 : startS < endS)
    (h3 : endS ≤ g.startVertex.sCoord + g.length + 1 / 100000) :
    Geometry.tessellate fns g out startS endS includeEndPt
      = out ++ Geometry.tessellate fns g [] startS endS includeEndPt
    ∧ ((Geometry.tessellate fns g [] startS endS includeEndPt).length : ℤ)
      = (if includeEndPt then ⌈endS - startS⌉ + 1 else ⌈endS - startS⌉)
    ∧ ∀ (i : ℕ) (hi : i < (Geometry.tessellate fns g [] startS endS includeEndPt).length),
        ((Geometry.tessellate fns g [] startS endS includeEndPt).get ⟨i, hi⟩).sCoord
          = startS + (i : ℚ) * ((endS - startS) / (⌈endS - startS⌉ : ℚ)) := by
  have hn := tessNum_pos h2
  refine ⟨geom_tessellate_append fns g out startS endS includeEndPt, ?_, ?_⟩
  · have hn' : 0 < ⌈endS - startS⌉ := by rw [← tessNum_eq_ceil]; exact hn
    rw [geom_tessellate_length]
    simp only [tessCount, tessNum_eq_ceil]
    cases includeEndPt <;> simp <;> omega
  · intro i hi
    have hmap := geom_tessellate_map_sCoord fns g startS endS includeEndPt
    have hlen2 : i < (List.map Vertex.sCoord
        (Geometry.tessellate fns g [] startS endS includeEndPt)).length := by
      simpa using hi
    have e2 := List.getElem_of_eq hmap hlen2
    rw [List.getElem_map] at e2
    rw [List.get_eq_getElem]
    rw [segSCoords_getElem] at e2
    rw [show ((Geometry.tessellate fns g [] startS endS includeEndPt)[i]).sCoord
        = Vertex.sCoord ((Geometry.tessellate fns g [] startS endS includeEndPt)[i]) from rfl]
    rw [e2, tessStep, tessNum_eq_ceil]

/-- C1 witness: a line geometry tessellated over `[1, 3]` with the end point. -/
theorem geometry_tessellate_appends_witness :
    ((Geometry.line ⟨0, (0, 0), 0⟩ 5).startVertex.sCoord ≤ 1
      ∧ (1 : ℚ) < 3
      ∧ (3 : ℚ) ≤ (Geometry.line ⟨0, (0, 0), 0⟩ 5).startVertex.sCoord
          + (Geometry.line ⟨0, (0, 0), 0⟩ 5).length + 1 / 100000)
    ∧ (Geometry.tessellate stdFns (Geometry.line ⟨0, (0, 0), 0⟩ 5) [] 1 3 true
        = [] ++ Geometry.tessellate stdFns (Geometry.line ⟨0, (0, 0), 0⟩ 5) [] 1 3 true
      ∧ ((Geometry.tessellate stdFns (Geometry.line ⟨0, (0, 0), 0⟩ 5) [] 1 3 true).length : ℤ)
        = (if true then ⌈(3 : ℚ) - 1⌉ + 1 else ⌈(3 : ℚ) - 1⌉)
      ∧ ∀ (i : ℕ)
          (hi : i < (Geometry.tessellate stdFns (Geometry.line ⟨0, (0, 0), 0⟩ 5) [] 1 3 true).length),
          ((Geometry.tessellate stdFns (Geometry.line ⟨0, (0, 0), 0⟩ 5) [] 1 3 true).get
              ⟨i, hi⟩).sCoord
            = 1 + (i : ℚ) * (((3 : ℚ) - 1) / ((⌈(3 : ℚ) - 1⌉ : ℤ) : ℚ))) :=
  ⟨⟨by norm_num [Geometry.startVertex], by norm_num,
      by norm_num [Geometry.startVertex, Geometry.length]⟩,
    geometry_tessellate_appends stdFns (Geometry.line ⟨0, (0, 0), 0⟩ 5) [] 1 3 true
      (by norm_num [Geometry.startVertex]) (by norm_num)
      (by norm_num [Geometry.startVertex, Geometry.length])⟩

/-! ### Ordering of tessellated s-coordinates -/

theorem segSCoords_sorted {startS endS : ℚ} (h : startS < endS) (includeEndPt : Bool) :
    (segSCoords startS endS includeEndPt).Pairwise (· < ·) := by
  have hstep := tessStep_pos h
  unfold segSCoords
  refine List.Pairwise.map _ ?_ (List.pairwise_lt_range _)
  intro a b hab
  have hab' : (a : ℚ) < b := by exact_mod_cast hab
  have := mul_lt_mul_of_pos_right hab' hstep
  linarith

theorem segSCoords_mem_bounds {startS endS : ℚ} (h : startS < endS) (includeEndPt : Bool) :
    ∀ x ∈ segSCoords startS endS includeEndPt,
      startS ≤ x ∧ x ≤ endS ∧ (includeEndPt = false → x < endS) := by
  intro x hx
  unfold segSCoords at hx
  rw [List.mem_map] at hx
  obtain ⟨i, hi, rfl⟩ := hx
  rw [List.mem_range] at hi
  have hstep := tessStep_pos h
  have hn := tessNum_pos h
  have hmul := tessNum_mul_tessStep h
  refine ⟨?_, ?_, ?_⟩
  · have : (0 : ℚ) ≤ (i : ℚ) * tessStep startS endS :=
      mul_nonneg (by positivity) hstep.le
    linarith
  · cases includeEndPt with
    | true =>
      have hii : (i : ℤ) ≤ tessNum startS endS := by
        simp [tessCount] at hi
        omega
      have hiq : (i : ℚ) ≤ ((tessNum startS endS : ℤ) : ℚ) := by exact_mod_cast hii
      have := mul_le_mul_of_nonneg_right hiq hstep.le
      linarith
    | false =>
      have hii : (i : ℤ) < tessNum startS endS := by
        simp [tessCount] at hi
        omega
      have hiq : (i : ℚ) < ((tessNum startS endS : ℤ) : ℚ) := by exact_mod_cast hii
      have := mul_lt_mul_of_pos_right hiq hstep
      linarith
  · intro hfalse
    subst hfalse
    have hii : (i : ℤ) < tessNum startS endS := by
      simp [tessCount] at hi
      omega
    have hiq : (i : ℚ) < ((tessNum startS endS : ℤ) : ℚ) := by exact_mod_cast hii
    have := mul_lt_mul_of_pos_right hiq hstep
    linarith

theorem segSCoords_count_end {startS endS : ℚ} (h : startS < endS) :
    (segSCoords startS endS true).count endS = 1
    ∧ (segSCoords startS endS false).count endS = 0 := by
  have hn := tessNum_pos h
  have hmul := tessNum_mul_tessStep h
  constructor
  · have hnodup : (segSCoords startS endS true).Nodup :=
      (segSCoords_sorted h true).imp (fun hab => ne_of_lt hab)
    have hmem : endS ∈ segSCoords startS endS true := by
      unfold segSCoords
      rw [List.mem_map]
      refine ⟨(tessNum startS endS).toNat, ?_, ?_⟩
      · rw [List.mem_range]
        simp [tessCount]
        omega
      · have hcast : (((tessNum startS endS).toNat : ℕ) : ℚ)
            = ((tessNum startS endS : ℤ) : ℚ) := by
          exact_mod_cast congrArg (fun z : ℤ => (z : ℚ)) (Int.toNat_of_nonneg hn.le)
        rw [hcast, hmul]
        ring
    exact List.count_eq_one_of_mem hnodup hmem
  · rw [List.count_eq_zero]
    intro hmem
    have := (segSCoords_mem_bounds h false endS hmem).2.2 rfl
    exact absurd this (lt_irrefl endS)

/-- The main induction for `ReferenceLine::tessellate`: over a well-formed
geometry list the emitted s-coordinates are strictly increasing, stay within
`[max startS firstStart, endS]`, and hit `endS` exactly once; when the
effective range is empty nothing is emitted. -/
theorem refTessLoop_sCoords (fns : MathFns) (startS endS : ℚ) :
    ∀ gs : List Geometry,
      List.Chain' (fun a b => b.startVertex.sCoord = a.startVertex.sCoord + a.length) gs →
      (∀ g ∈ gs, 0 < g.length) →
      endS ≤ geomsEndS gs →
      gs ≠ [] →
      ((max startS gs.headI.startVertex.sCoord < endS →
        (((refTessLoop fns startS endS gs).map Vertex.sCoord).Pairwise (· < ·)
          ∧ (∀ x ∈ (refTessLoop fns startS endS gs).map Vertex.sCoord,
              max startS gs.headI.startVertex.sCoord ≤ x ∧ x ≤ endS)
          ∧ ((refTessLoop fns startS endS gs).map Vertex.sCoord).count endS = 1))
      ∧ (endS ≤ max startS gs.headI.startVertex.sCoord →
          refTessLoop fns startS endS gs = [])) := by
  intro gs
  induction gs with
  | nil => intro _ _ _ hne; exact absurd rfl hne
  | cons g rest ih =>
    cases rest with
    | nil =>
      intro _ _ hend _
      simp only [geomsEndS] at hend
      have hmin : min endS (g.startVertex.sCoord + g.length) = endS := min_eq_left hend
      simp only [List.headI]
      constructor
      · intro heff
        have hcond : max startS g.startVertex.sCoord
            < min endS (g.startVertex.sCoord + g.length) := by
          rw [hmin]; exact heff
        have hrw : refTessLoop fns startS endS [g]
            = Geometry.tessellate fns g [] (max startS g.startVertex.sCoord)
                (min endS (g.startVertex.sCoord + g.length))
                (decide (min endS (g.startVertex.sCoord + g.length) = endS)) := by
          simp only [refTessLoop]
          rw [if_pos hcond]
        rw [hrw, hmin]
        have hdec : decide (endS = endS) = true := by simp
        rw [hdec, geom_tessellate_map_sCoord]
        refine ⟨segSCoords_sorted heff true, ?_, (segSCoords_count_end heff).1⟩
        intro x hx
        have := segSCoords_mem_bounds heff true x hx
        exact ⟨this.1, this.2.1⟩
      · intro hge
        have hcond : ¬(max startS g.startVertex.sCoord
            < min endS (g.startVertex.sCoord + g.length)) :=
          not_lt.mpr (le_trans (min_le_left _ _) hge)
        simp only [refTessLoop]
        rw [if_neg hcond]
    | cons g2 rest2 =>
      intro hchain hlen hend _
      have hgg2 : g2.startVertex.sCoord = g.startVertex.sCoord + g.length :=
        (List.chain'_cons.mp hchain).1
      have hchain2 : List.Chain' (fun a b =>
          b.startVertex.sCoord = a.startVertex.sCoord + a.length) (g2 :: rest2) :=
        (List.chain'_cons.mp hchain).2
      have hlen2 : ∀ g' ∈ g2 :: rest2, 0 < g'.length := by
        intro g' hg'
        exact hlen g' (List.mem_cons_of_mem _ hg')
      have hglen : 0 < g.length := hlen g (List.mem_cons_self _ _)
      have hs0lt : g.startVertex.sCoord < g2.startVertex.sCoord := by
        rw [hgg2]; linarith
      have hend2 : endS ≤ geomsEndS (g2 :: rest2) := by
        simpa only [geomsEndS] using hend
      have IH := ih hchain2 hlen2 hend2 (List.cons_ne_nil _ _)
      simp only [List.headI] at IH ⊢
      have hcsmono : max startS g.startVertex.sCoord ≤ max startS g2.startVertex.sCoord :=
        max_le_max le_rfl hs0lt.le
      constructor
      · intro heff
        have hsE : startS < endS := lt_of_le_of_lt (le_max_left _ _) heff
        by_cases hA : endS ≤ g2.startVertex.sCoord
        · have hce : min endS g2.startVertex.sCoord = endS := min_eq_left hA
          have htail : refTessLoop fns startS endS (g2 :: rest2) = [] :=
            IH.2 (le_trans hA (le_max_right _ _))
          have hcond : max startS g.startVertex.sCoord < min endS g2.startVertex.sCoord := by
            rw [hce]; exact heff
          have hrw : refTessLoop fns startS endS (g :: g2 :: rest2)
              = Geometry.tessellate fns g [] (max startS g.startVertex.sCoord)
                  (min endS g2.startVertex.sCoord)
                  (decide (min endS g2.startVertex.sCoord = endS))
                ++ refTessLoop fns startS endS (g2 :: rest2) := by
            simp only [refTessLoop]
            rw [if_pos hcond]
          rw [hrw, hce, htail, List.append_nil]
          have hdec : decide (endS = endS) = true := by simp
          rw [hdec, geom_tessellate_map_sCoord]
          refine ⟨segSCoords_sorted heff true, ?_, (segSCoords_count_end heff).1⟩
          intro x hx
          have := segSCoords_mem_bounds heff true x hx
          exact ⟨this.1, this.2.1⟩
        · push_neg at hA
          have hce : min endS g2.startVertex.sCoord = g2.startVertex.sCoord :=
            min_eq_right hA.le
          have heffT : max startS g2.startVertex.sCoord < endS := max_lt hsE hA
          obtain ⟨hp, hb, hc⟩ := IH.1 heffT
          by_cases hB : max startS g.startVertex.sCoord < g2.startVertex.sCoord
          · have hcond : max startS g.startVertex.sCoord < min endS g2.startVertex.sCoord := by
              rw [hce]; exact hB
            have hrw : refTessLoop fns startS endS (g :: g2 :: rest2)
                = Geometry.tessellate fns g [] (max startS g.startVertex.sCoord)
                    (min endS g2.startVertex.sCoord)
                    (decide (min endS g2.startVertex.sCoord = endS))
                  ++ refTessLoop fns startS endS (g2 :: rest2) := by
              simp only [refTessLoop]
              rw [if_pos hcond]
            have hdec : decide (min endS g2.startVertex.sCoord = endS) = false := by
              rw [hce]
              exact decide_eq_false (ne_of_lt hA)
            rw [hrw, hdec, hce, List.map_append, geom_tessellate_map_sCoord]
            have hsegmem := segSCoords_mem_bounds hB false
            refine ⟨?_, ?_, ?_⟩
            · rw [List.pairwise_append]
              refine ⟨segSCoords_sorted hB false, hp, ?_⟩
              intro x hx y hy
              have hxlt : x < g2.startVertex.sCoord := (hsegmem x hx).2.2 rfl
              have hyge : max startS g2.startVertex.sCoord ≤ y := (hb y hy).1
              calc x < g2.startVertex.sCoord := hxlt
                _ ≤ max startS g2.startVertex.sCoord := le_max_right _ _
                _ ≤ y := hyge
            · intro x hx
              rw [List.mem_append] at hx
              rcases hx with hx | hx
              · have := hsegmem x hx
                refine ⟨this.1, ?_⟩
                have : x < g2.startVertex.sCoord := this.2.2 rfl
                linarith
              · have := hb x hx
                exact ⟨le_trans hcsmono this.1, this.2⟩
            · have hc0 : (segSCoords (max startS g.startVertex.sCoord)
                  g2.startVertex.sCoord false).count endS = 0 := by
                rw [List.count_eq_zero]
                intro hmem
                have := (segSCoords_mem_bounds hB false endS hmem).2.2 rfl
                linarith
              rw [List.count_append, hc0, hc]
          · have hcond : ¬(max startS g.startVertex.sCoord < min endS g2.startVertex.sCoord) := by
              rw [hce]; exact hB
            have hrw : refTessLoop fns startS endS (g :: g2 :: rest2)
                = [] ++ refTessLoop fns startS endS (g2 :: rest2) := by
              simp only [refTessLoop]
              rw [if_neg hcond]
            rw [hrw, List.nil_append]
            refine ⟨hp, ?_, hc⟩
            intro x hx
            have := hb x hx
            exact ⟨le_trans hcsmono this.1, this.2⟩
      · intro hge
        have hcond : ¬(max startS g.startVertex.sCoord < min endS g2.startVertex.sCoord) :=
          not_lt.mpr (le_trans (min_le_left _ _) hge)
        have htail : refTessLoop fns startS endS (g2 :: rest2) = [] :=
          IH.2 (le_trans hge hcsmono)
        have hrw : refTessLoop fns startS endS (g :: g2 :: rest2)
            = [] ++ refTessLoop fns startS endS (g2 :: rest2) := by
          simp only [refTessLoop]
          rw [if_neg hcond]
        rw [hrw, htail, List.nil_append]

/-- C2: over a well-formed reference line, `tessellate(startS, endS)` emits
strictly increasing s-coordinates (so no vertex is duplicated at interior
geometry boundaries) containing exactly one vertex with `sCoord = endS`. -/
theorem referenceLine_tessellate_endpoint_unique (fns : MathFns) (rl : ReferenceLine)
    (startS endS : ℚ)
    (hne : rl.geometries ≠ [])
    (hchain : List.Chain' (fun a b =>
        b.startVertex.sCoord = a.startVertex.sCoord + a.length) rl.geometries)
    (hlen : ∀ g ∈ rl.geometries, 0 < g.length)
    (hhead : rl.geometries.headI.startVertex.sCoord = 0)
    (hend : geomsEndS rl.geometries = rl.endVertex.sCoord)
    (h0 : 0 ≤ startS) (hse : startS < endS) (hE : endS ≤ rl.endVertex.sCoord) :
    ((rl.tessellate fns startS endS).map Vertex.sCoord).Pairwise (· < ·)
    ∧ ((rl.tessellate fns startS endS).map Vertex.sCoord).count endS = 1 := by
  have hend' : endS ≤ geomsEndS rl.geometries := by rw [hend]; exact hE
  have heff : max startS rl.geometries.headI.startVertex.sCoord = startS := by
    rw [hhead]
    exact max_eq_left h0
  have H := (refTessLoop_sCoords fns startS endS rl.geometries hchain hlen hend' hne).1
  rw [heff] at H
  have H' := H hse
  exact ⟨H'.1, H'.2.2⟩

/-- C2 witness: a two-geometry reference line (a line then an arc) tessellated
over `[1, 4]`. -/
theorem referenceLine_tessellate_endpoint_unique_witness :
    ((1 : ℚ) < 4
      ∧ (4 : ℚ) ≤ (⟨[Geometry.line ⟨0, (0, 0), 0⟩ 2, Geometry.arc ⟨2, (2, 0), 0⟩ 3 1],
          ⟨5, (0, 0), 0⟩⟩ : ReferenceLine).endVertex.sCoord)
    ∧ (((ReferenceLine.tessellate stdFns
          ⟨[Geometry.line ⟨0, (0, 0), 0⟩ 2, Geometry.arc ⟨2, (2, 0), 0⟩ 3 1],
            ⟨5, (0, 0), 0⟩⟩ 1 4).map Vertex.sCoord).Pairwise (· < ·)
      ∧ ((ReferenceLine.tessellate stdFns
          ⟨[Geometry.line ⟨0, (0, 0), 0⟩ 2, Geometry.arc ⟨2, (2, 0), 0⟩ 3 1],
            ⟨5, (0, 0), 0⟩⟩ 1 4).map Vertex.sCoord).count 4 = 1) :=
  ⟨⟨by norm_num, by norm_num⟩,
    referenceLine_tessellate_endpoint_unique stdFns
      ⟨[Geometry.line ⟨0, (0, 0), 0⟩ 2, Geometry.arc ⟨2, (2, 0), 0⟩ 3 1], ⟨5, (0, 0), 0⟩⟩
      1 4 (by simp)
      (by simp [List.chain'_cons, Geometry.startVertex, Geometry.length])
      (by
        intro g hg
        simp only [List.mem_cons, List.mem_singleton] at hg
        rcases hg with rfl | rfl | h
        · norm_num [Geometry.length]
        · norm_num [Geometry.length]
        · exact absurd h (List.not_mem_nil _))
      (by norm_num [List.headI, Geometry.startVertex])
      (by norm_num [geomsEndS, Geometry.startVertex, Geometry.length])
      (by norm_num) (by norm_num) (by norm_num)⟩

/-! ### Lane-boundary tessellation for a single constant-width left lane -/

theorem rowLoop_const_zip_replicate (s0 : ℚ) (sd : ℤ) (ww : ℚ) :
    ∀ vs : List Vertex,
      boundaryRowLoop s0 sd (vs.zip (List.replicate vs.length (0 : ℚ))) ⟨0, ⟨ww, 0, 0, 0⟩⟩ []
        = List.replicate vs.length (ww * (-(sd : ℚ))) := by
  intro vs
  induction vs with
  | nil => rfl
  | cons v rest ih =>
    simp only [List.length_cons, List.replicate_succ, List.zip_cons_cons, boundaryRowLoop,
      advancePoly]
    have hzip : List.zipWith Prod.mk rest (List.replicate rest.length (0 : ℚ))
        = rest.zip (List.replicate rest.length 0) := rfl
    rw [hzip, ih]
    simp [Poly3.eval]

theorem tessellateLaneBoundaries_single_left (w len : ℚ) (refTess : List Vertex) :
    tessellateLaneBoundaries (singleLeftLaneSection w len) refTess
      = some [List.replicate refTess.length w, List.replicate refTess.length 0,
              List.replicate refTess.length 0] := by
  have h1 := rowLoop_const_zip_replicate 0 (-1) w refTess
  have h2 := rowLoop_const_zip_replicate 0 1 0 refTess
  have hw : w * (-((-1 : ℤ) : ℚ)) = w := by norm_num
  have h0 : (0 : ℚ) * (-((1 : ℤ) : ℚ)) = 0 := by norm_num
  rw [hw] at h1
  rw [h0] at h2
  simp [tessellateLaneBoundaries, singleLeftLaneSection, leftLaneIndices,
    rightLaneIndices, tessSide, laneBoundaryRow, h1, h2]

theorem lineTessellate_heading_position (fns : MathFns) (len : ℚ) (hsin : fns.sin 0 = 0) :
    ∀ v ∈ lineTessellate fns ⟨0, (0, 0), 0⟩ [] 0 len true,
      v.heading = 0 ∧ v.position.2 = 0 := by
  intro v hv
  simp only [lineTessellate, List.nil_append, List.mem_map] at hv
  obtain ⟨i, _, rfl⟩ := hv
  exact ⟨rfl, by simp [hsin]⟩

theorem curveRow_zero (fns : MathFns) :
    ∀ vs : List Vertex,
      (vs.zip (List.replicate vs.length (0 : ℚ))).map (fun vl =>
        (vl.1.position.1 + -(fns.sin vl.1.heading) * vl.2,
          vl.1.position.2 + fns.cos vl.1.heading * vl.2))
        = vs.map (fun v => v.position) := by
  intro vs
  induction vs with
  | nil => rfl
  | cons v rest ih =>
    simp only [List.length_cons, List.replicate_succ, List.zip_cons_cons, List.map_cons]
    rw [ih]
    simp

theorem curveRow_const (fns : MathFns) (c : ℚ) (hcos : fns.cos 0 = 1) (hsin : fns.sin 0 = 0) :
    ∀ vs : List Vertex, (∀ v ∈ vs, v.heading = 0 ∧ v.position.2 = 0) →
      (vs.zip (List.replicate vs.length c)).map (fun vl =>
        (vl.1.position.1 + -(fns.sin vl.1.heading) * vl.2,
          vl.1.position.2 + fns.cos vl.1.heading * vl.2))
        = vs.map (fun v => (v.position.1, c)) := by
  intro vs
  induction vs with
  | nil => intro _; rfl
  | cons v rest ih =>
    intro hvs
    have hv := hvs v (List.mem_cons_self _ _)
    simp only [List.length_cons, List.replicate_succ, List.zip_cons_cons, List.map_cons]
    rw [ih (fun u hu => hvs u (List.mem_cons_of_mem _ hu))]
    rw [hv.1]
    simp [hcos, hsin, hv.2]

/-- C4 (amended): for a straight reference line of length `len` with heading 0
and a lane section with a single left lane of constant width `w` and a single
right lane of width 0, the boundary lateral positions are `[w, 0, 0]` at every
sample (three boundaries for two lanes), the left-most boundary curve is the
polyline `y = w`, and the right-most boundary curve is the reference line
itself. -/
theorem lane_boundaries_single_left_lane (fns : MathFns) (w len : ℚ)
    (hcos : fns.cos 0 = 1) (hsin : fns.sin 0 = 0) (hlen : 0 < len) :
    tessellateLaneBoundaries (singleLeftLaneSection w len)
        (lineTessellate fns ⟨0, (0, 0), 0⟩ [] 0 len true)
      = some [List.replicate (lineTessellate fns ⟨0, (0, 0), 0⟩ [] 0 len true).length w,
              List.replicate (lineTessellate fns ⟨0, (0, 0), 0⟩ [] 0 len true).length 0,
              List.replicate (lineTessellate fns ⟨0, (0, 0), 0⟩ [] 0 len true).length 0]
    ∧ tessellateLaneBoundaryCurves fns (singleLeftLaneSection w len)
        (lineTessellate fns ⟨0, (0, 0), 0⟩ [] 0 len true)
      = some [(lineTessellate fns ⟨0, (0, 0), 0⟩ [] 0 len true).map
                (fun v => (v.position.1, w)),
              (lineTessellate fns ⟨0, (0, 0), 0⟩ [] 0 len true).map (fun v => v.position),
              (lineTessellate fns ⟨0, (0, 0), 0⟩ [] 0 len true).map (fun v => v.position)] := by
  have hb := tessellateLaneBoundaries_single_left w len
    (lineTessellate fns ⟨0, (0, 0), 0⟩ [] 0 len true)
  refine ⟨hb, ?_⟩
  rw [tessellateLaneBoundaryCurves, hb]
  simp only [List.map_cons, List.map_nil]
  rw [curveRow_const fns w hcos hsin _ (lineTessellate_heading_position fns len hsin),
    curveRow_zero]

/-- C4 witness (for the amended claim): `w = 3`, `len = 2` with the concrete
math primitives. -/
theorem lane_boundaries_single_left_lane_witness :
    (stdFns.cos 0 = 1 ∧ stdFns.sin 0 = 0 ∧ (0 : ℚ) < 2)
    ∧ (tessellateLaneBoundaries (singleLeftLaneSection 3 2)
          (lineTessellate stdFns ⟨0, (0, 0), 0⟩ [] 0 2 true)
        = some [List.replicate (lineTessellate stdFns ⟨0, (0, 0), 0⟩ [] 0 2 true).length 3,
                List.replicate (lineTessellate stdFns ⟨0, (0, 0), 0⟩ [] 0 2 true).length 0,
                List.replicate (lineTessellate stdFns ⟨0, (0, 0), 0⟩ [] 0 2 true).length 0]
      ∧ tessellateLaneBoundaryCurves stdFns (singleLeftLaneSection 3 2)
          (lineTessellate stdFns ⟨0, (0, 0), 0⟩ [] 0 2 true)
        = some [(lineTessellate stdFns ⟨0, (0, 0), 0⟩ [] 0 2 true).map
                  (fun v => (v.position.1, 3)),
                (lineTessellate stdFns ⟨0, (0, 0), 0⟩ [] 0 2 true).map (fun v => v.position),
                (lineTessellate stdFns ⟨0, (0, 0), 0⟩ [] 0 2 true).map (fun v => v.position)]) :=
  ⟨⟨rfl, rfl, by norm_num⟩,
    lane_boundaries_single_left_lane stdFns 3 2 rfl rfl (by norm_num)⟩

/-- C4 counterexample: with `w = 3` on the three-sample tessellation of a
straight reference line of length 2, the per-sample lateral-positions array
across the boundaries is `[3, 0, 0]` (three boundaries), not `[w, 0] = [3, 0]`
as the claim states. -/
theorem lane_boundaries_claim_counterexample :
    (tessellateLaneBoundaries (singleLeftLaneSection 3 2)
        [⟨0, (0, 0), 0⟩, ⟨1, (1, 0), 0⟩, ⟨2, (2, 0), 0⟩]).map
      (fun bs => bs.map (fun row => row.getD 0 0))
      = some [3, 0, 0]
    ∧ ([3, 0, 0] : List ℚ) ≠ [3, 0] := by
  constructor
  · rw [tessellateLaneBoundaries_single_left]
    simp [List.replicate]
  · simp

/-! ### Width-polynomial lookup -/

theorem takeWhile_len_le {α : Type} (p : α → Bool) :
    ∀ l : List α, (l.takeWhile p).length ≤ l.length := by
  intro l
  induction l with
  | nil => simp
  | cons a t ih =>
    by_cases h : p a
    · simp only [List.takeWhile_cons_of_pos h, List.length_cons]
      omega
    · simp [List.takeWhile_cons_of_neg h]

theorem widthAtSCoord_isSome (ws : List WidthPoly3) (s : ℚ) :
    (widthAtSCoord ws s).isSome ↔ ws ≠ [] := by
  cases ws with
  | nil => simp [widthAtSCoord]
  | cons w rest =>
    simp only [widthAtSCoord]
    have hk : ((List.drop 1 (w :: rest)).takeWhile
        (fun p => decide (p.sOffset ≤ s))).length ≤ rest.length := by
      simpa using takeWhile_len_le _ (List.drop 1 (w :: rest))
    have hidx : 1 + ((List.drop 1 (w :: rest)).takeWhile
        (fun p => decide (p.sOffset ≤ s))).length - 1
        = ((List.drop 1 (w :: rest)).takeWhile (fun p => decide (p.sOffset ≤ s))).length := by
      omega
    rw [hidx]
    have hlt : ((List.drop 1 (w :: rest)).takeWhile
        (fun p => decide (p.sOffset ≤ s))).length < (w :: rest).length := by
      simp only [List.length_cons]
      omega
    rw [List.get?_eq_get hlt]
    simp

theorem takeWhile_nil_of_all_gt (s : ℚ) (l : List WidthPoly3)
    (h : ∀ x ∈ l, s < x.sOffset) :
    l.takeWhile (fun p => decide (p.sOffset ≤ s)) = [] := by
  cases l with
  | nil => rfl
  | cons a t =>
    have := h a (List.mem_cons_self _ _)
    simp [List.takeWhile_cons, not_le.mpr this]

theorem widthAtSCoord_go (s : ℚ) :
    ∀ (rest : List WidthPoly3) (w : WidthPoly3),
      (∀ x ∈ rest, w.sOffset < x.sOffset) →
      ((rest.map WidthPoly3.sOffset).Pairwise (· < ·)) →
      ∃ p, widthPolyForSCoordSpec (w :: rest) s = some p
        ∧ widthAtSCoord (w :: rest) s = some (p.poly3.eval (s - p.sOffset)) := by
  intro rest
  induction rest with
  | nil =>
    intro w _ _
    refine ⟨w, ?_, ?_⟩
    · by_cases hw : w.sOffset ≤ s <;> simp [widthPolyForSCoordSpec, hw]
    · simp [widthAtSCoord]
  | cons r rest2 ih =>
    intro w hgt hpair
    have hp : (∀ a ∈ rest2, r.sOffset < a.sOffset)
        ∧ (rest2.map WidthPoly3.sOffset).Pairwise (· < ·) := by
      simpa using hpair
    have hr_rest : ∀ x ∈ rest2, r.sOffset < x.sOffset := hp.1
    have hpair2 : (rest2.map WidthPoly3.sOffset).Pairwise (· < ·) := hp.2
    by_cases hr : r.sOffset ≤ s
    · obtain ⟨p, hspec, hcode⟩ := ih r hr_rest hpair2
      refine ⟨p, ?_, ?_⟩
      · unfold widthPolyForSCoordSpec at hspec ⊢
        have hfr : (r :: rest2).filter (fun p => decide (p.sOffset ≤ s))
            = r :: rest2.filter (fun p => decide (p.sOffset ≤ s)) := by
          simp [List.filter_cons, hr]
        have hne : ((r :: rest2).filter (fun p => decide (p.sOffset ≤ s))).getLast? ≠ none := by
          rw [hfr]
          simp
        obtain ⟨q, hq⟩ := Option.ne_none_iff_exists'.mp hne
        rw [hq] at hspec
        simp only [Option.some.injEq] at hspec
        by_cases hw : w.sOffset ≤ s
        · rw [List.filter_cons_of_pos (by simpa using hw), hfr, List.getLast?_cons_cons,
            ← hfr, hq]
          simp [hspec]
        · rw [List.filter_cons_of_neg (by simpa using hw), hq]
          simp [hspec]
      · have hstep : widthAtSCoord (w :: r :: rest2) s = widthAtSCoord (r :: rest2) s := by
          simp only [widthAtSCoord, List.drop_one, List.tail_cons]
          rw [List.takeWhile_cons_of_pos (by simpa using hr)]
          simp only [List.length_cons]
          rw [show 1 + ((rest2.takeWhile (fun p => decide (p.sOffset ≤ s))).length + 1) - 1
              = (rest2.takeWhile (fun p => decide (p.sOffset ≤ s))).length + 1 from by omega]
          rw [show 1 + (rest2.takeWhile (fun p => decide (p.sOffset ≤ s))).length - 1
              = (rest2.takeWhile (fun p => decide (p.sOffset ≤ s))).length from by omega]
          rw [List.get?_cons_succ]
        rw [hstep]
        exact hcode
    · have htw : (r :: rest2).takeWhile (fun p => decide (p.sOffset ≤ s)) = [] := by
        apply takeWhile_nil_of_all_gt
        intro x hx
        rcases List.mem_cons.mp hx with rfl | hx'
        · exact lt_of_not_le hr
        · exact lt_trans (lt_of_not_le hr) (hr_rest x hx')
      have hfilter : (r :: rest2).filter (fun p => decide (p.sOffset ≤ s)) = [] := by
        rw [List.filter_eq_nil]
        intro x hx
        simp only [decide_eq_true_eq]
        rcases List.mem_cons.mp hx with rfl | hx'
        · exact hr
        · exact not_le.mpr (lt_trans (lt_of_not_le hr) (hr_rest x hx'))
      refine ⟨w, ?_, ?_⟩
      · unfold widthPolyForSCoordSpec
        by_cases hw : w.sOffset ≤ s
        · rw [List.filter_cons_of_pos (by simpa using hw), hfilter]
          simp
        · rw [List.filter_cons_of_neg (by simpa using hw), hfilter]
          simp
      · simp only [widthAtSCoord, List.drop_one, List.tail_cons]
        rw [htw]
        simp

theorem boundaryRowLoop_length (s0 : ℚ) (sd : ℤ) :
    ∀ (pairs : List (Vertex × ℚ)) (cur : WidthPoly3) (next : List WidthPoly3),
      (boundaryRowLoop s0 sd pairs cur next).length = pairs.length := by
  intro pairs
  induction pairs with
  | nil => intro _ _; rfl
  | cons p rest ih =>
    intro cur next
    obtain ⟨v, inner⟩ := p
    simp only [boundaryRowLoop, List.length_cons]
    rw [ih]

theorem laneBoundaryRow_isSome (s0 : ℚ) (sd : ℤ) (refTess : List Vertex) (inner : List ℚ)
    (ws : List WidthPoly3) (href : refTess ≠ []) :
    (laneBoundaryRow s0 sd refTess inner ws).isSome ↔ ws ≠ [] := by
  have hie : refTess.isEmpty = false := by
    cases refTess with
    | nil => exact absurd rfl href
    | cons v t => rfl
  cases ws with
  | nil => simp [laneBoundaryRow, hie]
  | cons c n => simp [laneBoundaryRow]

theorem laneBoundaryRow_some_length (s0 : ℚ) (sd : ℤ) (refTess : List Vertex)
    (inner : List ℚ) (c : WidthPoly3) (n : List WidthPoly3)
    (hlen : inner.length = refTess.length) :
    ∃ row, laneBoundaryRow s0 sd refTess inner (c :: n) = some row
      ∧ row.length = refTess.length := by
  refine ⟨_, rfl, ?_⟩
  rw [boundaryRowLoop_length, List.length_zip, hlen, min_self]

theorem tessSide_isSome (ls : LaneSection) (refTess : List Vertex) (sd : ℤ)
    (href : refTess ≠ []) :
    ∀ (idxs : List ℕ) (inner : List ℚ), inner.length = refTess.length →
      ((tessSide ls refTess sd idxs inner).isSome ↔
        ∀ i ∈ idxs, (ls.lanes.getD i default).widthPoly3s ≠ []) := by
  intro idxs
  induction idxs with
  | nil => intro inner _; simp [tessSide]
  | cons i rest ih =>
    intro inner hlen
    simp only [tessSide]
    cases hws : (ls.lanes.getD i default).widthPoly3s with
    | nil =>
      have hrow : laneBoundaryRow ls.startS sd refTess inner ([] : List WidthPoly3) = none := by
        have := laneBoundaryRow_isSome ls.startS sd refTess inner [] href
        simp at this
        exact this
      rw [hrow]
      simp only [Option.isSome_none, Bool.false_eq_true, false_iff]
      intro hall
      exact absurd hws (hall i (List.mem_cons_self _ _))
    | cons c n =>
      obtain ⟨row, hrow, hrowlen⟩ := laneBoundaryRow_some_length ls.startS sd refTess inner
        c n hlen
      have hred : (match laneBoundaryRow ls.startS sd refTess inner (c :: n) with
            | none => none
            | some row =>
              match tessSide ls refTess sd rest row with
              | none => none
              | some more => some (row :: more))
          = (match tessSide ls refTess sd rest row with
              | none => none
              | some more => some (row :: more)) := by
        rw [hrow]
      rw [hred]
      have ihh := ih row (by rw [hrowlen])
      cases hts : tessSide ls refTess sd rest row with
      | none =>
        show (Option.isSome none = true) ↔ _
        simp only [Option.isSome_none, Bool.false_eq_true, false_iff]
        intro hall
        have : (tessSide ls refTess sd rest row).isSome :=
          ihh.mpr (fun j hj => hall j (List.mem_cons_of_mem _ hj))
        rw [hts] at this
        simp at this
      | some more =>
        show (Option.isSome (some (row :: more)) = true) ↔ _
        simp only [Option.isSome_some, true_iff]
        intro j hj
        rcases List.mem_cons.mp hj with rfl | hj'
        · rw [hws]
          exact List.cons_ne_nil _ _
        · exact (ihh.mp (by rw [hts]; simp)) j hj'

theorem tessellateLaneBoundaries_isSome (ls : LaneSection) (refTess : List Vertex)
    (h0 : 0 ≤ ls.numLeftLanes) (h1 : ls.numLeftLanes ≤ (ls.lanes.length : ℤ))
    (href : refTess ≠ []) :
    (tessellateLaneBoundaries ls refTess).isSome ↔
      ∀ lane ∈ ls.lanes, lane.widthPoly3s ≠ [] := by
  have hcen : (List.replicate refTess.length (0 : ℚ)).length = refTess.length := by simp
  have htoNat : (ls.numLeftLanes.toNat : ℤ) = ls.numLeftLanes := Int.toNat_of_nonneg h0
  have htn_le : ls.numLeftLanes.toNat ≤ ls.lanes.length := by omega
  have hleft : (if ls.numLeftLanes ≠ 0 then
        tessSide ls refTess (-1) (leftLaneIndices ls) (List.replicate refTess.length 0)
      else some []).isSome
      ↔ ∀ i ∈ leftLaneIndices ls, (ls.lanes.getD i default).widthPoly3s ≠ [] := by
    by_cases hnl : ls.numLeftLanes ≠ 0
    · rw [if_pos hnl]
      exact tessSide_isSome ls refTess (-1) href _ _ hcen
    · rw [if_neg hnl]
      push_neg at hnl
      simp [leftLaneIndices, hnl]
  have hright : (if ls.numLeftLanes < (ls.lanes.length : ℤ) then
        tessSide ls refTess 1 (rightLaneIndices ls) (List.replicate refTess.length 0)
      else some []).isSome
      ↔ ∀ i ∈ rightLaneIndices ls, (ls.lanes.getD i default).widthPoly3s ≠ [] := by
    by_cases hnr : ls.numLeftLanes < (ls.lanes.length : ℤ)
    · rw [if_pos hnr]
      exact tessSide_isSome ls refTess 1 href _ _ hcen
    · rw [if_neg hnr]
      have : ls.lanes.length - ls.numLeftLanes.toNat = 0 := by omega
      simp [rightLaneIndices, this]
  have hiff : (tessellateLaneBoundaries ls refTess).isSome
      ↔ ((∀ i ∈ leftLaneIndices ls, (ls.lanes.getD i default).widthPoly3s ≠ [])
        ∧ (∀ i ∈ rightLaneIndices ls, (ls.lanes.getD i default).widthPoly3s ≠ [])) := by
    rw [tessellateLaneBoundaries]
    cases hL : (if ls.numLeftLanes ≠ 0 then
        tessSide ls refTess (-1) (leftLaneIndices ls) (List.replicate refTess.length 0)
      else some []) with
    | none =>
      rw [hL] at hleft
      simp only [Option.isSome_none, Bool.false_eq_true, false_iff] at hleft
      simp only [Option.isSome_none, Bool.false_eq_true, false_iff]
      intro hc
      exact hleft hc.1
    | some leftRows =>
      rw [hL] at hleft
      simp only [Option.isSome_some, true_iff] at hleft
      cases hR : (if ls.numLeftLanes < (ls.lanes.length : ℤ) then
          tessSide ls refTess 1 (rightLaneIndices ls) (List.replicate refTess.length 0)
        else some []) with
      | none =>
        rw [hR] at hright
        simp only [Option.isSome_none, Bool.false_eq_true, false_iff] at hright
        simp only [Option.isSome_none, Bool.false_eq_true, false_iff]
        intro hc
        exact hright hc.2
      | some rightRows =>
        rw [hR] at hright
        simp only [Option.isSome_some, true_iff] at hright
        simp only [Option.isSome_some, true_iff]
        exact ⟨hleft, hright⟩
  rw [hiff]
  constructor
  · intro hc lane hlane
    obtain ⟨i, hi, rfl⟩ := List.mem_iff_getElem.mp hlane
    have hgetD : ls.lanes.getD i default = ls.lanes[i] := List.getD_eq_getElem ls.lanes default hi
    by_cases hil : i < ls.numLeftLanes.toNat
    · have := hc.1 i (by simp [leftLaneIndices, List.mem_reverse, List.mem_range, hil])
      rwa [hgetD] at this
    · have hmem : i ∈ rightLaneIndices ls := by
        rw [rightLaneIndices, List.mem_range']
        refine ⟨i - ls.numLeftLanes.toNat, by omega, by omega⟩
      have := hc.2 i hmem
      rwa [hgetD] at this
  · intro hall
    constructor
    · intro i hi
      rw [leftLaneIndices, List.mem_reverse, List.mem_range] at hi
      have hilt : i < ls.lanes.length := lt_of_lt_of_le hi htn_le
      rw [List.getD_eq_getElem ls.lanes default hilt]
      exact hall _ (List.getElem_mem _)
    · intro i hi
      rw [rightLaneIndices, List.mem_range'] at hi
      obtain ⟨k, hk, rfl⟩ := hi
      have hilt : ls.numLeftLanes.toNat + 1 * k < ls.lanes.length := by omega
      rw [List.getD_eq_getElem ls.lanes default hilt]
      exact hall _ (List.getElem_mem _)

/-- C10: the `widthPoly3s` indexing in `widthAtSCoord` and
`tessellateLaneBoundaries(…Side)` is in bounds exactly when the width vector is
non-empty (both read entry 0 unconditionally: the embedding returns `none` on
the out-of-bounds read); under the non-emptiness precondition `widthAtSCoord s`
evaluates the last `WidthPoly3` with `sOffset ≤ s` at `s - sOffset`, falling
back to the first entry when `s` precedes every `sOffset`. -/
theorem width_poly3s_indexing :
    (∀ (ws : List WidthPoly3) (s : ℚ), (widthAtSCoord ws s).isSome ↔ ws ≠ [])
    ∧ (∀ (ls : LaneSection) (refTess : List Vertex),
        0 ≤ ls.numLeftLanes → ls.numLeftLanes ≤ (ls.lanes.length : ℤ) → refTess ≠ [] →
        ((tessellateLaneBoundaries ls refTess).isSome ↔
          ∀ lane ∈ ls.lanes, lane.widthPoly3s ≠ []))
    ∧ (∀ (ws : List WidthPoly3) (s : ℚ), ws ≠ [] →
        (ws.map WidthPoly3.sOffset).Pairwise (· < ·) →
        ∃ p, widthPolyForSCoordSpec ws s = some p
          ∧ widthAtSCoord ws s = some (p.poly3.eval (s - p.sOffset))) := by
  refine ⟨widthAtSCoord_isSome, ?_, ?_⟩
  · intro ls refTess h0 h1 href
    exact tessellateLaneBoundaries_isSome ls refTess h0 h1 href
  · intro ws s hne hpair
    cases ws with
    | nil => exact absurd rfl hne
    | cons w rest =>
      have hp : (∀ a ∈ rest, w.sOffset < a.sOffset)
          ∧ (rest.map WidthPoly3.sOffset).Pairwise (· < ·) := by
        simpa using hpair
      exact widthAtSCoord_go s rest w hp.1 hp.2

/-- C10 witness: a two-entry width vector evaluated past both offsets, and the
single-left-lane section on a one-sample tessellation. -/
theorem width_poly3s_indexing_witness :
    ((0 : ℤ) ≤ (singleLeftLaneSection 3 2).numLeftLanes
      ∧ (singleLeftLaneSection 3 2).numLeftLanes
          ≤ ((singleLeftLaneSection 3 2).lanes.length : ℤ)
      ∧ ([(⟨0, (0, 0), 0⟩ : Vertex)] ≠ [])
      ∧ ([(⟨0, ⟨2, 0, 0, 0⟩⟩ : WidthPoly3), ⟨5, ⟨7, 0, 0, 0⟩⟩] ≠ [])
      ∧ (([(⟨0, ⟨2, 0, 0, 0⟩⟩ : WidthPoly3), ⟨5, ⟨7, 0, 0, 0⟩⟩].map
          WidthPoly3.sOffset).Pairwise (· < ·)))
    ∧ ((tessellateLaneBoundaries (singleLeftLaneSection 3 2)
          [(⟨0, (0, 0), 0⟩ : Vertex)]).isSome ↔
        ∀ lane ∈ (singleLeftLaneSection 3 2).lanes, lane.widthPoly3s ≠ [])
    ∧ (∃ p, widthPolyForSCoordSpec [(⟨0, ⟨2, 0, 0, 0⟩⟩ : WidthPoly3), ⟨5, ⟨7, 0, 0, 0⟩⟩] 6
          = some p
        ∧ widthAtSCoord [(⟨0, ⟨2, 0, 0, 0⟩⟩ : WidthPoly3), ⟨5, ⟨7, 0, 0, 0⟩⟩] 6
          = some (p.poly3.eval (6 - p.sOffset))) :=
  ⟨⟨by decide, by decide, by decide, by decide, by decide⟩,
    width_poly3s_indexing.2.1 (singleLeftLaneSection 3 2) [⟨0, (0, 0), 0⟩]
      (by decide) (by decide) (by decide),
    width_poly3s_indexing.2.2 [⟨0, ⟨2, 0, 0, 0⟩⟩, ⟨5, ⟨7, 0, 0, 0⟩⟩] 6
      (by decide) (by decide)⟩

/-! ### Lane-link direction validation -/

theorem laneBackLinkCheck_opposing_mem (toSection : LaneSection)
    (k1 k2 : LaneSectionContactPointKey) (opp : Bool) (blt : RoadLinkType)
    (toMin toMax : ℤ) (f t fid tid : ℤ) :
    LinkErr.laneLinkOpposingDirections k1 k2 fid tid
        ∈ (laneBackLinkCheck toSection k1 k2 opp blt toMin toMax f t).2
      ↔ (f = fid ∧ t = tid ∧ t ≠ 0 ∧ sameSide f t = opp) := by
  by_cases h0 : t = 0
  · simp [laneBackLinkCheck, validateLaneLinkInRange, h0]
  · by_cases h1 : sameSide f t = opp
    · simp only [laneBackLinkCheck, validateLaneLinkInRange, if_neg h0, if_pos h1]
      simp [h0, h1, eq_comm]
    · by_cases h2 : t < toMin ∨ t > toMax
      · simp [laneBackLinkCheck, validateLaneLinkInRange, if_neg h0, if_neg h1, if_pos h2, h1]
      · simp only [laneBackLinkCheck, validateLaneLinkInRange, if_neg h0, if_neg h1, if_neg h2]
        by_cases h3 : (toSection.laneById t).hasLink blt
        · by_cases h4 : (toSection.laneById t).link blt ≠ f
          · simp [h3, h4, h1]
          · simp [h3, h4, h1]
        · simp [h3, h1]

theorem laneLinksLoop_opposing_mem (fromSection toSection : LaneSection)
    (k1 k2 : LaneSectionContactPointKey) (opp : Bool) (lt blt : RoadLinkType)
    (toMin toMax : ℤ) (fid tid : ℤ) :
    ∀ (lanes : List Lane) (i0 : ℕ),
      (LinkErr.laneLinkOpposingDirections k1 k2 fid tid
          ∈ (laneLinksLoop fromSection toSection k1 k2 opp lt blt toMin toMax i0 lanes).2)
      ↔ ∃ j, j < lanes.length
          ∧ (lanes.getD j default).hasLink lt = true
          ∧ fromSection.laneIndexToId ((i0 + j : ℕ) : ℤ) = fid
          ∧ (lanes.getD j default).link lt = tid
          ∧ tid ≠ 0
          ∧ sameSide fid tid = opp := by
  intro lanes
  induction lanes with
  | nil => intro i0; simp [laneLinksLoop]
  | cons lane rest ih =>
    intro i0
    simp only [laneLinksLoop]
    by_cases hl : lane.hasLink lt
    · rw [if_pos hl]
      simp only [List.mem_append]
      rw [laneBackLinkCheck_opposing_mem, ih (i0 + 1)]
      constructor
      · intro h
        rcases h with ⟨hf, ht, htne, hside⟩ | ⟨j, hj, hhas, hidx, hlink, htne, hside⟩
        · refine ⟨0, by simp, ?_, ?_, ?_, ?_, ?_⟩
          · simpa using hl
          · simpa using hf
          · simpa using ht
          · rw [← ht]; exact htne
          · rw [← hf, ← ht]
            exact hside
        · refine ⟨j + 1, by simpa using hj, by simpa using hhas, ?_, by simpa using hlink,
            htne, hside⟩
          have : (i0 + (j + 1) : ℕ) = ((i0 + 1) + j : ℕ) := by omega
          rw [this]
          exact hidx
      · intro h
        obtain ⟨j, hj, hhas, hidx, hlink, htne, hside⟩ := h
        cases j with
        | zero =>
          left
          simp only [List.getD_cons_zero] at hhas hlink
          rw [Nat.add_zero] at hidx
          exact ⟨hidx, hlink, by rw [hlink]; exact htne, by rw [hidx, hlink]; exact hside⟩
        | succ j' =>
          right
          refine ⟨j', by simpa using hj, by simpa using hhas, ?_, by simpa using hlink,
            htne, hside⟩
          have : ((i0 + 1) + j' : ℕ) = (i0 + (j' + 1) : ℕ) := by omega
          rw [this]
          exact hidx
    · rw [if_neg hl]
      rw [ih (i0 + 1)]
      constructor
      · intro h
        obtain ⟨j, hj, hhas, hidx, hlink, htne, hside⟩ := h
        refine ⟨j + 1, by simpa using hj, by simpa using hhas, ?_, by simpa using hlink,
          htne, hside⟩
        have : (i0 + (j + 1) : ℕ) = ((i0 + 1) + j : ℕ) := by omega
        rw [this]
        exact hidx
      · intro h
        obtain ⟨j, hj, hhas, hidx, hlink, htne, hside⟩ := h
        cases j with
        | zero =>
          simp only [List.getD_cons_zero] at hhas
          exact absurd hhas (by simpa using hl)
        | succ j' =>
          refine ⟨j', by simpa using hj, by simpa using hhas, ?_, by simpa using hlink,
            htne, hside⟩
          have : ((i0 + 1) + j' : ℕ) = (i0 + (j' + 1) : ℕ) := by omega
          rw [this]
          exact hidx

/-- C6: `validateLaneLinks` records a `LaneLinkOpposingDirections` error for
`(fromLaneId, toLaneId)` exactly when some from-lane holds a link of the
contact-point-determined type with that non-zero target and the sign equality
`sameSide(fromLaneId, toLaneId)` coincides with the contact points sharing a
role (both START or both END), i.e. fails to match the same-direction
predicate. -/
theorem lane_link_opposing_directions_iff (fromSection toSection : LaneSection)
    (k1 k2 : LaneSectionContactPointKey) (fid tid : ℤ) :
    (LinkErr.laneLinkOpposingDirections k1 k2 fid tid
        ∈ (validateLaneLinks fromSection toSection k1 k2).2)
      ↔ ∃ i, i < fromSection.lanes.length
          ∧ (fromSection.lanes.getD i default).hasLink
              (linkTypeForContactPoint k1.contactPoint) = true
          ∧ fromSection.laneIndexToId (i : ℤ) = fid
          ∧ (fromSection.lanes.getD i default).link
              (linkTypeForContactPoint k1.contactPoint) = tid
          ∧ tid ≠ 0
          ∧ sameSide fid tid = decide (k1.contactPoint = k2.contactPoint) := by
  unfold validateLaneLinks
  have h := laneLinksLoop_opposing_mem fromSection toSection k1 k2
    (decide (k1.contactPoint = k2.contactPoint))
    (linkTypeForContactPoint k1.contactPoint)
    (linkTypeForContactPoint k2.contactPoint)
    (-toSection.numRightLanes) toSection.numLeftLanes fid tid fromSection.lanes 0
  simpa using h

/-! ### XML attribute parsing -/

theorem entries_name_mono {V : Type} [Inhabited V] (entries : List (AttrEntry V))
    (hsorted : (entries.map AttrEntry.name).Pairwise (· < ·)) :
    ∀ a b, a < b → b < entries.length →
      (entries.getD a default).name < (entries.getD b default).name := by
  intro a b hab hb
  have ha : a < entries.length := lt_trans hab hb
  have h := List.pairwise_iff_getElem.mp hsorted a b (by simpa using ha) (by simpa using hb) hab
  rw [List.getElem_map, List.getElem_map] at h
  rwa [List.getD_eq_getElem entries default ha, List.getD_eq_getElem entries default hb]

theorem entries_name_inj {V : Type} [Inhabited V] (entries : List (AttrEntry V))
    (hsorted : (entries.map AttrEntry.name).Pairwise (· < ·)) :
    ∀ a b, a < entries.length → b < entries.length →
      (entries.getD a default).name = (entries.getD b default).name → a = b := by
  intro a b ha hb hname
  rcases lt_trichotomy a b with h | h | h
  · have := entries_name_mono entries hsorted a b h hb
    omega
  · exact h
  · have := entries_name_mono entries hsorted b a h ha
    omega

theorem findEntryAux_some {V : Type} [Inhabited V] (entries : List (AttrEntry V)) (name : ℕ) :
    ∀ (fuel lo hi i : ℕ), lo ≤ hi → hi ≤ entries.length →
      findEntryAux entries name fuel lo hi = some i →
      lo ≤ i ∧ i < hi ∧ (entries.getD i default).name = name := by
  intro fuel
  induction fuel with
  | zero =>
    intro lo hi i _ _ h
    simp [findEntryAux] at h
  | succ fuel ih =>
    intro lo hi i hlh hhi h
    simp only [findEntryAux] at h
    by_cases hlohi : lo = hi
    · rw [if_pos hlohi] at h
      exact absurd h (by simp)
    · rw [if_neg hlohi] at h
      by_cases h1 : (entries.getD ((lo + hi) / 2) default).name < name
      · rw [if_pos h1] at h
        obtain ⟨ha, hb, hc⟩ := ih ((lo + hi) / 2 + 1) hi i (by omega) hhi h
        exact ⟨by omega, hb, hc⟩
      · rw [if_neg h1] at h
        by_cases h2 : name < (entries.getD ((lo + hi) / 2) default).name
        · rw [if_pos h2] at h
          obtain ⟨ha, hb, hc⟩ := ih lo ((lo + hi) / 2) i (by omega) (by omega) h
          exact ⟨ha, by omega, hc⟩
        · rw [if_neg h2] at h
          simp only [Option.some.injEq] at h
          subst h
          exact ⟨by omega, by omega, by omega⟩

theorem findEntryAux_found {V : Type} [Inhabited V] (entries : List (AttrEntry V)) (name : ℕ)
    (hsorted : (entries.map AttrEntry.name).Pairwise (· < ·)) :
    ∀ (fuel lo hi j : ℕ), hi - lo < fuel → lo ≤ j → j < hi → hi ≤ entries.length →
      (entries.getD j default).name = name →
      ∃ i, findEntryAux entries name fuel lo hi = some i := by
  intro fuel
  induction fuel with
  | zero =>
    intro lo hi j hfuel hloj hjhi _ _
    omega
  | succ fuel ih =>
    intro lo hi j hfuel hloj hjhi hhile hname
    simp only [findEntryAux]
    have hlohi : lo ≠ hi := by omega
    rw [if_neg hlohi]
    by_cases h1 : (entries.getD ((lo + hi) / 2) default).name < name
    · rw [if_pos h1]
      have hjmid : (lo + hi) / 2 < j := by
        by_contra hc
        push_neg at hc
        rcases lt_or_eq_of_le hc with hlt | heq
        · have := entries_name_mono entries hsorted j ((lo + hi) / 2) hlt (by omega)
          omega
        · rw [heq] at hname
          omega
      exact ih ((lo + hi) / 2 + 1) hi j (by omega) (by omega) hjhi hhile hname
    · rw [if_neg h1]
      by_cases h2 : name < (entries.getD ((lo + hi) / 2) default).name
      · rw [if_pos h2]
        have hjmid : j < (lo + hi) / 2 := by
          by_contra hc
          push_neg at hc
          rcases lt_or_eq_of_le hc with hlt | heq
          · have := entries_name_mono entries hsorted ((lo + hi) / 2) j hlt (by omega)
            omega
          · rw [← heq] at hname
            omega
        exact ih lo ((lo + hi) / 2) j (by omega) hloj hjmid (by omega) hname
      · rw [if_neg h2]
        exact ⟨(lo + hi) / 2, rfl⟩

theorem findEntry_some {V : Type} [Inhabited V] (entries : List (AttrEntry V)) (name : ℕ)
    (i : ℕ) (h : findEntry entries name = some i) :
    i < entries.length ∧ (entries.getD i default).name = name := by
  have := findEntryAux_some entries name (entries.length + 1) 0 entries.length i
    (by omega) le_rfl h
  exact ⟨this.2.1, this.2.2⟩

theorem findEntry_found {V : Type} [Inhabited V] (entries : List (AttrEntry V)) (name : ℕ)
    (hsorted : (entries.map AttrEntry.name).Pairwise (· < ·))
    (j : ℕ) (hj : j < entries.length) (hname : (entries.getD j default).name = name) :
    ∃ i, findEntry entries name = some i :=
  findEntryAux_found entries name hsorted (entries.length + 1) 0 entries.length j
    (by omega) (by omega) hj le_rfl hname

theorem parseAttribsLoop_cons_none {V : Type} [Inhabited V] (elemName : ℕ)
    (entries : List (AttrEntry V)) (a : Attrib) (rest : List Attrib)
    (st : ParseState V) (visited : List ℕ)
    (hf : findEntry entries a.name = none) :
    parseAttribsLoop elemName entries (a :: rest) st visited
      = parseAttribsLoop elemName entries rest
          ⟨st.value, st.errors ++ [⟨.unexpectedAttribute, elemName, a.value, none⟩]⟩
          visited := by
  simp only [parseAttribsLoop, hf]

theorem parseAttribsLoop_cons_ok {V : Type} [Inhabited V] (elemName : ℕ)
    (entries : List (AttrEntry V)) (a : Attrib) (rest : List Attrib)
    (st : ParseState V) (visited : List ℕ) (mid : ℕ) (v2 : V)
    (hf : findEntry entries a.name = some mid)
    (hp : (entries.getD mid default).parseFunc a.value st.value = some v2) :
    parseAttribsLoop elemName entries (a :: rest) st visited
      = parseAttribsLoop elemName entries rest ⟨v2, st.errors⟩ (visited ++ [mid]) := by
  simp only [parseAttribsLoop, hf, hp]

theorem parseAttribsLoop_cons_throw {V : Type} [Inhabited V] (elemName : ℕ)
    (entries : List (AttrEntry V)) (a : Attrib) (rest : List Attrib)
    (st : ParseState V) (visited : List ℕ) (mid : ℕ)
    (hf : findEntry entries a.name = some mid)
    (hp : (entries.getD mid default).parseFunc a.value st.value = none) :
    parseAttribsLoop elemName entries (a :: rest) st visited
      = parseAttribsLoop elemName entries rest
          ⟨st.value, st.errors ++ [⟨.invalidAttributeValue, (entries.getD mid default).name,
            a.value, some (entries.getD mid default).failClass⟩]⟩
          (visited ++ [mid]) := by
  simp only [parseAttribsLoop, hf, hp]

theorem parseAttribsLoop_errors_mono {V : Type} [Inhabited V] (elemName : ℕ)
    (entries : List (AttrEntry V)) :
    ∀ (attribs : List Attrib) (st : ParseState V) (visited : List ℕ) (e : XmlErr),
      e ∈ st.errors → e ∈ (parseAttribsLoop elemName entries attribs st visited).1.errors := by
  intro attribs
  induction attribs with
  | nil => intro st visited e he; exact he
  | cons a rest ih =>
    intro st visited e he
    cases hf : findEntry entries a.name with
    | none =>
      rw [parseAttribsLoop_cons_none elemName entries a rest st visited hf]
      exact ih _ _ e (by simp [he])
    | some mid =>
      cases hp : (entries.getD mid default).parseFunc a.value st.value with
      | some v2 =>
        rw [parseAttribsLoop_cons_ok elemName entries a rest st visited mid v2 hf hp]
        exact ih _ _ e he
      | none =>
        rw [parseAttribsLoop_cons_throw elemName entries a rest st visited mid hf hp]
        exact ih _ _ e (by simp [he])

theorem parseAttribsLoop_unexpected {V : Type} [Inhabited V] (elemName : ℕ)
    (entries : List (AttrEntry V)) :
    ∀ (attribs : List Attrib) (st : ParseState V) (visited : List ℕ) (a : Attrib),
      a ∈ attribs → (∀ j, j < entries.length → (entries.getD j default).name ≠ a.name) →
      (⟨.unexpectedAttribute, elemName, a.value, none⟩ : XmlErr)
        ∈ (parseAttribsLoop elemName entries attribs st visited).1.errors := by
  intro attribs
  induction attribs with
  | nil => intro _ _ a ha; exact absurd ha (List.not_mem_nil _)
  | cons b rest ih =>
    intro st visited a ha hnames
    rcases List.mem_cons.mp ha with rfl | ha'
    · cases hf : findEntry entries a.name with
      | none =>
        rw [parseAttribsLoop_cons_none elemName entries a rest st visited hf]
        exact parseAttribsLoop_errors_mono elemName entries rest _ _ _ (by simp)
      | some mid =>
        obtain ⟨hmidlen, hmidname⟩ := findEntry_some entries a.name mid hf
        exact absurd hmidname (hnames mid hmidlen)
    · cases hf : findEntry entries b.name with
      | none =>
        rw [parseAttribsLoop_cons_none elemName entries b rest st visited hf]
        exact ih _ _ a ha' hnames
      | some mid =>
        cases hp : (entries.getD mid default).parseFunc b.value st.value with
        | some v2 =>
          rw [parseAttribsLoop_cons_ok elemName entries b rest st visited mid v2 hf hp]
          exact ih _ _ a ha' hnames
        | none =>
          rw [parseAttribsLoop_cons_throw elemName entries b rest st visited mid hf hp]
          exact ih _ _ a ha' hnames

theorem parseAttribsLoop_invalid {V : Type} [Inhabited V] (elemName : ℕ)
    (entries : List (AttrEntry V))
    (hsorted : (entries.map AttrEntry.name).Pairwise (· < ·)) :
    ∀ (attribs : List Attrib) (st : ParseState V) (visited : List ℕ) (a : Attrib) (i : ℕ),
      a ∈ attribs → i < entries.length → (entries.getD i default).name = a.name →
      (∀ v : V, (entries.getD i default).parseFunc a.value v = none) →
      (⟨.invalidAttributeValue, (entries.getD i default).name, a.value,
        some (entries.getD i default).failClass⟩ : XmlErr)
        ∈ (parseAttribsLoop elemName entries attribs st visited).1.errors := by
  intro attribs
  induction attribs with
  | nil => intro _ _ a _ ha; exact absurd ha (List.not_mem_nil _)
  | cons b rest ih =>
    intro st visited a i ha hi hiname hthrow
    rcases List.mem_cons.mp ha with rfl | ha'
    · obtain ⟨k, hk⟩ := findEntry_found entries a.name hsorted i hi hiname
      obtain ⟨hklen, hkname⟩ := findEntry_some entries a.name k hk
      have hki : k = i := entries_name_inj entries hsorted k i hklen hi (by rw [hkname, hiname])
      subst hki
      rw [parseAttribsLoop_cons_throw elemName entries a rest st visited k hk
        (hthrow st.value)]
      exact parseAttribsLoop_errors_mono elemName entries rest _ _ _ (by simp)
    · cases hf : findEntry entries b.name with
      | none =>
        rw [parseAttribsLoop_cons_none elemName entries b rest st visited hf]
        exact ih _ _ a i ha' hi hiname hthrow
      | some mid =>
        cases hp : (entries.getD mid default).parseFunc b.value st.value with
        | some v2 =>
          rw [parseAttribsLoop_cons_ok elemName entries b rest st visited mid v2 hf hp]
          exact ih _ _ a i ha' hi hiname hthrow
        | none =>
          rw [parseAttribsLoop_cons_throw elemName entries b rest st visited mid hf hp]
          exact ih _ _ a i ha' hi hiname hthrow

theorem parseAttribsLoop_visited {V : Type} [Inhabited V] (elemName : ℕ)
    (entries : List (AttrEntry V))
    (hsorted : (entries.map AttrEntry.name).Pairwise (· < ·)) :
    ∀ (attribs : List Attrib) (st : ParseState V) (visited : List ℕ) (i : ℕ),
      (i ∈ (parseAttribsLoop elemName entries attribs st visited).2
        ↔ i ∈ visited
          ∨ (i < entries.length ∧ ∃ a ∈ attribs, (entries.getD i default).name = a.name)) := by
  intro attribs
  induction attribs with
  | nil => intro st visited i; simp [parseAttribsLoop]
  | cons b rest ih =>
    intro st visited i
    cases hf : findEntry entries b.name with
    | none =>
      rw [parseAttribsLoop_cons_none elemName entries b rest st visited hf]
      rw [ih]
      constructor
      · rintro (h | ⟨hlen, a, ha, hname⟩)
        · exact Or.inl h
        · exact Or.inr ⟨hlen, a, List.mem_cons_of_mem _ ha, hname⟩
      · rintro (h | ⟨hlen, a, ha, hname⟩)
        · exact Or.inl h
        · rcases List.mem_cons.mp ha with rfl | ha'
          · obtain ⟨k, hk⟩ := findEntry_found entries a.name hsorted i hlen hname
            rw [hk] at hf
            exact absurd hf (by simp)
          · exact Or.inr ⟨hlen, a, ha', hname⟩
    | some mid =>
      obtain ⟨hmidlen, hmidname⟩ := findEntry_some entries b.name mid hf
      have hmain : ∀ st2 : ParseState V,
          (i ∈ (parseAttribsLoop elemName entries rest st2 (visited ++ [mid])).2
            ↔ i ∈ visited
              ∨ (i < entries.length ∧ ∃ a ∈ b :: rest, (entries.getD i default).name = a.name)) := by
        intro st2
        rw [ih]
        constructor
        · rintro (h | ⟨hlen, a, ha, hname⟩)
          · rcases List.mem_append.mp h with h' | h'
            · exact Or.inl h'
            · have : i = mid := by simpa using h'
              subst this
              exact Or.inr ⟨hmidlen, b, List.mem_cons_self _ _, hmidname⟩
          · exact Or.inr ⟨hlen, a, List.mem_cons_of_mem _ ha, hname⟩
        · rintro (h | ⟨hlen, a, ha, hname⟩)
          · exact Or.inl (List.mem_append.mpr (Or.inl h))
          · rcases List.mem_cons.mp ha with rfl | ha'
            · have : i = mid := entries_name_inj entries hsorted i mid hlen hmidlen
                (by rw [hname, hmidname])
              subst this
              exact Or.inl (List.mem_append.mpr (Or.inr (by simp)))
            · exact Or.inr ⟨hlen, a, ha', hname⟩
      cases hp : (entries.getD mid default).parseFunc b.value st.value with
      | some v2 =>
        rw [parseAttribsLoop_cons_ok elemName entries b rest st visited mid v2 hf hp]
        exact hmain _
      | none =>
        rw [parseAttribsLoop_cons_throw elemName entries b rest st visited mid hf hp]
        exact hmain _

theorem applyUnvisited_errors_mono {V : Type} [Inhabited V] (elemName : ℕ)
    (entries : List (AttrEntry V)) (visited : List ℕ) :
    ∀ (idxs : List ℕ) (st : ParseState V) (e : XmlErr),
      e ∈ st.errors → e ∈ (applyUnvisited elemName entries visited idxs st).errors := by
  intro idxs
  induction idxs with
  | nil => intro st e he; exact he
  | cons i rest ih =>
    intro st e he
    simp only [applyUnvisited]
    by_cases hv : i ∈ visited
    · rw [if_pos hv]
      exact ih _ e he
    · rw [if_neg hv]
      by_cases hr : (entries.getD i default).required
      · rw [if_pos hr]
        exact ih _ e (by simp [he])
      · rw [if_neg hr]
        exact ih _ e he

theorem applyUnvisited_missing {V : Type} [Inhabited V] (elemName : ℕ)
    (entries : List (AttrEntry V)) (visited : List ℕ) :
    ∀ (idxs : List ℕ) (st : ParseState V) (i : ℕ),
      i ∈ idxs → i ∉ visited → (entries.getD i default).required = true →
      (⟨.missingAttribute, elemName, (entries.getD i default).name,
        some (entries.getD i default).failClass⟩ : XmlErr)
        ∈ (applyUnvisited elemName entries visited idxs st).errors := by
  intro idxs
  induction idxs with
  | nil => intro _ i hi; exact absurd hi (List.not_mem_nil _)
  | cons j rest ih =>
    intro st i hi hnv hreq
    rcases List.mem_cons.mp hi with rfl | hi'
    · simp only [applyUnvisited]
      rw [if_neg hnv, if_pos hreq]
      exact applyUnvisited_errors_mono elemName entries visited rest _ _ (by simp)
    · simp only [applyUnvisited]
      by_cases hv : j ∈ visited
      · rw [if_pos hv]
        exact ih _ i hi' hnv hreq
      · rw [if_neg hv]
        by_cases hr : (entries.getD j default).required
        · rw [if_pos hr]
          exact ih _ i hi' hnv hreq
        · rw [if_neg hr]
          exact ih _ i hi' hnv hreq

theorem applyUnvisited_value {V : Type} [Inhabited V] (elemName : ℕ)
    (entries : List (AttrEntry V)) (visited : List ℕ) :
    ∀ (idxs : List ℕ) (st : ParseState V),
      (applyUnvisited elemName entries visited idxs st).value
        = idxs.foldl (fun v i =>
            if i ∉ visited ∧ (entries.getD i default).required = false then
              (entries.getD i default).setDefaultFunc v
            else v) st.value := by
  intro idxs
  induction idxs with
  | nil => intro st; rfl
  | cons i rest ih =>
    intro st
    simp only [applyUnvisited, List.foldl_cons]
    by_cases hv : i ∈ visited
    · rw [if_pos hv, ih]
      congr 1
      rw [if_neg (by simp [hv])]
    · rw [if_neg hv]
      by_cases hr : (entries.getD i default).required
      · rw [if_pos hr, ih]
        congr 1
        have hcontra : ¬(i ∉ visited ∧ (entries.getD i default).required = false) := by
          intro hc
          rw [hr] at hc
          exact absurd hc.2 (by decide)
        rw [if_neg hcontra]
      · rw [if_neg hr, ih]
        congr 1
        rw [if_pos ⟨hv, by simpa using hr⟩]

/-- C9: over a finalized (name-sorted) attribute-parser table, `parse` appends
a non-fatal `UnexpectedAttribute` error for every unregistered attribute,
an `InvalidAttributeValue` error carrying the entry's stored failure class for
every registered attribute whose binding throws, a `MissingAttribute` error for
every required entry absent from the attribute list, and invokes the default
setter of exactly the absent optional entries (in entry order) on the result
value. -/
theorem xml_attribute_parse_contract {V : Type} [Inhabited V] (elemName : ℕ)
    (entries : List (AttrEntry V)) (attribs : List Attrib) (v0 : V)
    (hsorted : (entries.map AttrEntry.name).Pairwise (· < ·)) :
    (∀ a ∈ attribs, (∀ j, j < entries.length → (entries.getD j default).name ≠ a.name) →
      (⟨.unexpectedAttribute, elemName, a.value, none⟩ : XmlErr)
          ∈ (xmlAttributeParse elemName entries attribs ⟨v0, []⟩).errors
        ∧ XmlCat.isFatal .unexpectedAttribute = false)
    ∧ (∀ a ∈ attribs, ∀ i, i < entries.length → (entries.getD i default).name = a.name →
        (∀ v : V, (entries.getD i default).parseFunc a.value v = none) →
        (⟨.invalidAttributeValue, (entries.getD i default).name, a.value,
          some (entries.getD i default).failClass⟩ : XmlErr)
          ∈ (xmlAttributeParse elemName entries attribs ⟨v0, []⟩).errors)
    ∧ (∀ i, i < entries.length → (entries.getD i default).required = true →
        (∀ a ∈ attribs, (entries.getD i default).name ≠ a.name) →
        (⟨.missingAttribute, elemName, (entries.getD i default).name,
          some (entries.getD i default).failClass⟩ : XmlErr)
          ∈ (xmlAttributeParse elemName entries attribs ⟨v0, []⟩).errors)
    ∧ (xmlAttributeParse elemName entries attribs ⟨v0, []⟩).value
        = (List.range entries.length).foldl (fun v i =>
            if (∀ a ∈ attribs, (entries.getD i default).name ≠ a.name)
                ∧ (entries.getD i default).required = false then
              (entries.getD i default).setDefaultFunc v
            else v)
          (parseAttribsLoop elemName entries attribs ⟨v0, []⟩ []).1.value := by
  refine ⟨?_, ?_, ?_, ?_⟩
  · intro a ha hnames
    refine ⟨?_, by decide⟩
    unfold xmlAttributeParse
    exact applyUnvisited_errors_mono elemName entries _ _ _ _
      (parseAttribsLoop_unexpected elemName entries attribs _ _ a ha hnames)
  · intro a ha i hi hiname hthrow
    unfold xmlAttributeParse
    exact applyUnvisited_errors_mono elemName entries _ _ _ _
      (parseAttribsLoop_invalid elemName entries hsorted attribs _ _ a i ha hi hiname hthrow)
  · intro i hi hreq hnames
    unfold xmlAttributeParse
    have hnv : i ∉ (parseAttribsLoop elemName entries attribs ⟨v0, []⟩ []).2 := by
      rw [parseAttribsLoop_visited elemName entries hsorted attribs _ _ i]
      rintro (h | ⟨_, a, ha, hname⟩)
      · exact absurd h (List.not_mem_nil _)
      · exact hnames a ha hname
    exact applyUnvisited_missing elemName entries _ _ _ i (by simpa using hi) hnv hreq
  · unfold xmlAttributeParse
    rw [applyUnvisited_value]
    apply List.foldl_ext
    intro v i hi
    rw [List.mem_range] at hi
    have hvis : i ∈ (parseAttribsLoop elemName entries attribs ⟨v0, []⟩ []).2
        ↔ ∃ a ∈ attribs, (entries.getD i default).name = a.name := by
      rw [parseAttribsLoop_visited elemName entries hsorted attribs _ _ i]
      simp [hi]
    by_cases hv : i ∈ (parseAttribsLoop elemName entries attribs ⟨v0, []⟩ []).2
    · obtain ⟨a, ha, hname⟩ := hvis.mp hv
      rw [if_neg (by simp [hv]), if_neg ?_]
      intro hc
      exact hc.1 a ha hname
    · by_cases hr : (entries.getD i default).required
      · have hc1 : ¬(i ∉ (parseAttribsLoop elemName entries attribs ⟨v0, []⟩ []).2
            ∧ (entries.getD i default).required = false) := by
          intro hc
          rw [hr] at hc
          exact absurd hc.2 (by decide)
        have hc2 : ¬((∀ a ∈ attribs, (entries.getD i default).name ≠ a.name)
            ∧ (entries.getD i default).required = false) := by
          intro hc
          rw [hr] at hc
          exact absurd hc.2 (by decide)
        rw [if_neg hc1, if_neg hc2]
      · rw [if_pos ⟨hv, by simpa using hr⟩, if_pos ?_]
        refine ⟨?_, by simpa using hr⟩
        intro a ha hname
        exact hv (hvis.mpr ⟨a, ha, hname⟩)

/-- C9 witness: the concrete table parsed against a single unregistered
attribute records the non-fatal unexpected-attribute warning and the
missing-attribute error of the absent required entry. -/
theorem xml_attribute_parse_contract_witness :
    ((witnessEntries.map AttrEntry.name).Pairwise (· < ·)
      ∧ (⟨5, 11⟩ : Attrib) ∈ witnessAttribs
      ∧ (∀ j, j < witnessEntries.length →
          (witnessEntries.getD j default).name ≠ (⟨5, 11⟩ : Attrib).name))
    ∧ ((⟨.unexpectedAttribute, 0, (⟨5, 11⟩ : Attrib).value, none⟩ : XmlErr)
          ∈ (xmlAttributeParse 0 witnessEntries witnessAttribs ⟨(0 : ℕ), []⟩).errors
        ∧ XmlCat.isFatal .unexpectedAttribute = false)
    ∧ (⟨.missingAttribute, 0, (witnessEntries.getD 0 default).name,
          some (witnessEntries.getD 0 default).failClass⟩ : XmlErr)
        ∈ (xmlAttributeParse 0 witnessEntries witnessAttribs ⟨(0 : ℕ), []⟩).errors :=
  ⟨⟨by decide, by decide, by decide⟩,
    (xml_attribute_parse_contract 0 witnessEntries witnessAttribs 0 (by decide)).1
      ⟨5, 11⟩ (by decide) (by decide),
    (xml_attribute_parse_contract 0 witnessEntries witnessAttribs 0 (by decide)).2.2.1
      0 (by decide) (by decide) (by decide)⟩

/-- `findConnection` returning a connection implies `hasConnection`. -/
theorem findConnection_hasConnection (j : Junction) (a b : ℕ) (cp : ContactPoint)
    (conn : Connection) (h : j.findConnection a b cp = some conn) :
    j.hasConnection a b cp = true := by
  unfold Junction.findConnection at h
  unfold Junction.hasConnection
  rw [List.any_eq_true]
  refine ⟨conn, List.mem_of_find?_eq_some h, ?_⟩
  have hp := List.find?_some h
  exact hp

/-- A true result from `validateRoadRoadLink` forces a reciprocal link from
the linked contact point back to the source contact point. -/
theorem validateRoadRoadLink_recip (m : XodrMap) (a b : RoadContactPointKey)
    (h : (validateRoadRoadLink m a b).1 = true) : reciprocalRoadLink m a b := by
  unfold reciprocalRoadLink
  cases hb : roadLinkForRoadContactPoint m b with
  | notSpecified =>
    simp [validateRoadRoadLink, hb] at h
  | road elementIdx contactPoint =>
    simp only [validateRoadRoadLink, hb] at h
    by_cases hx : elementIdx ≠ a.roadIdx ∨ contactPoint ≠ a.contactPoint
    · rw [if_pos hx] at h
      simp at h
    · push_neg at hx
      exact Or.inl (by rw [hx.1, hx.2])
  | junction jIdx =>
    simp only [validateRoadRoadLink, hb] at h
    cases hc : (m.junctions.getD jIdx default).findConnection b.roadIdx a.roadIdx
        a.contactPoint with
    | some conn =>
      exact Or.inr ⟨jIdx, rfl, Or.inl (findConnection_hasConnection _ _ _ _ _ hc)⟩
    | none =>
      simp only [hc] at h
      by_cases ho : (m.junctions.getD jIdx default).hasOutgoingConnection a.roadIdx
          a.contactPoint = true
      · exact Or.inr ⟨jIdx, rfl, Or.inr ho⟩
      · rw [if_neg ho] at h
        simp at h

/-- A true result from `validateIncomingConnectingLink` forces a reciprocal
link from the connecting road's far contact point back to the source. -/
theorem validateIncomingConnectingLink_recip (m : XodrMap)
    (a b : RoadContactPointKey) (ck : JunctionConnectionKey)
    (h : (validateIncomingConnectingLink m a b ck).1 = true) :
    reciprocalRoadLink m a b := by
  unfold reciprocalRoadLink
  cases hb : roadLinkForRoadContactPoint m b with
  | notSpecified =>
    simp [validateIncomingConnectingLink, hb] at h
  | road elementIdx contactPoint =>
    simp only [validateIncomingConnectingLink, hb] at h
    by_cases hx : elementIdx ≠ a.roadIdx ∨ contactPoint ≠ a.contactPoint
    · rw [if_pos hx] at h
      simp at h
    · push_neg at hx
      exact Or.inl (by rw [hx.1, hx.2])
  | junction jIdx =>
    simp only [validateIncomingConnectingLink, hb] at h
    by_cases hcn : (m.junctions.getD jIdx default).hasConnection b.roadIdx a.roadIdx
        a.contactPoint = true
    · rw [if_pos hcn] at h
      simp at h
    · rw [if_neg hcn] at h
      by_cases ho : (m.junctions.getD jIdx default).hasOutgoingConnection a.roadIdx
          a.contactPoint = true
      · exact Or.inr ⟨jIdx, rfl, Or.inr ho⟩
      · rw [if_neg ho] at h
        simp at h

/-- If the junction-connection loop succeeds, every connection whose incoming
road is the linking road passed `validateIncomingConnectingLink` at some
connection index. -/
theorem junctionConnsLoop_mem_true (m : XodrMap) (key : RoadContactPointKey)
    (junctionIdx : ℕ) (conns : List Connection) :
    ∀ i0 : ℕ, (junctionConnsLoop m key junctionIdx i0 conns).1 = true →
      ∀ conn ∈ conns, conn.incomingRoad = key.roadIdx →
        ∃ i : ℕ, (validateIncomingConnectingLink m key
          ⟨conn.connectingRoad, conn.contactPoint⟩ ⟨junctionIdx, i⟩).1 = true := by
  induction conns with
  | nil =>
    intro i0 _ conn hmem
    simp at hmem
  | cons c rest ih =>
    intro i0 h conn hmem hinc
    by_cases hc : c.incomingRoad = key.roadIdx
    · simp only [junctionConnsLoop, if_pos hc, Bool.and_eq_true] at h
      rcases List.mem_cons.mp hmem with hconn | hconn
      · subst hconn
        exact ⟨i0, h.1⟩
      · exact ih (i0 + 1) h.2 conn hconn hinc
    · simp only [junctionConnsLoop, if_neg hc] at h
      rcases List.mem_cons.mp hmem with hconn | hconn
      · subst hconn
        exact absurd hinc hc
      · exact ih (i0 + 1) h conn hconn hinc

/-- A successful `validateLinksIteration` whose road link targets a road
directly forces the reciprocal link. -/
theorem validateLinksIteration_road_recip (m : XodrMap) (key : RoadContactPointKey)
    (h : (validateLinksIteration m key).1 = true)
    (idx : ℕ) (cp : ContactPoint)
    (hlink : roadLinkForRoadContactPoint m key = .road idx cp) :
    reciprocalRoadLink m key ⟨idx, cp⟩ := by
  simp only [validateLinksIteration, hlink] at h
  cases hjr : (m.roads[idx]?.getD default).junctionRef with
  | some j =>
    simp [hjr] at h
  | none =>
    simp only [List.getD_eq_getElem?_getD, hjr] at h
    exact validateRoadRoadLink_recip m key ⟨idx, cp⟩ h

/-- A successful `validateLinksIteration` whose road link targets a junction
forces a reciprocal link for every connection leading out of the road. -/
theorem validateLinksIteration_junction_recip (m : XodrMap)
    (key : RoadContactPointKey)
    (h : (validateLinksIteration m key).1 = true)
    (jIdx : ℕ) (hlink : roadLinkForRoadContactPoint m key = .junction jIdx)
    (conn : Connection) (hmem : conn ∈ (m.junctions.getD jIdx default).connections)
    (hinc : conn.incomingRoad = key.roadIdx) :
    reciprocalRoadLink m key ⟨conn.connectingRoad, conn.contactPoint⟩ := by
  simp only [validateLinksIteration, hlink] at h
  obtain ⟨i, hi⟩ := junctionConnsLoop_mem_true m key jIdx
    (m.junctions.getD jIdx default).connections 0 h conn hmem hinc
  exact validateIncomingConnectingLink_recip m key
    ⟨conn.connectingRoad, conn.contactPoint⟩ ⟨jIdx, i⟩ hi

/-- If the road loop of `validateLinks` succeeds, both per-contact-point
iterations succeeded for every listed road index. -/
theorem roadsValidateLoop_true (m : XodrMap) :
    ∀ idxs : List ℕ, (roadsValidateLoop m idxs).1 = true →
      ∀ i ∈ idxs, (validateLinksIteration m ⟨i, .START⟩).1 = true
        ∧ (validateLinksIteration m ⟨i, .END⟩).1 = true := by
  intro idxs
  induction idxs with
  | nil =>
    intro _ i hi
    simp at hi
  | cons j rest ih =>
    intro h i hi
    simp only [roadsValidateLoop, Bool.and_eq_true] at h
    obtain ⟨⟨⟨_, hstart⟩, hend⟩, hrest⟩ := h
    rcases List.mem_cons.mp hi with hij | hij
    · subst hij
      exact ⟨hstart, hend⟩
    · exact ih hrest i hij

/-- C5: if `validateLinks` reports no errors for a map, then every directed
road link A→B — whether A's link targets road B's contact point directly or
targets a junction through one of whose connections A reaches B — has a
reciprocal link B→A: the linked road's own link at the linked contact point
names A at A's contact point, or it names a junction holding a connection
leading back from B to A (incoming or outgoing). -/
theorem validate_links_symmetry (m : XodrMap)
    (hvalid : (validateLinks m).1 = true)
    (aKey : RoadContactPointKey) (ha : aKey.roadIdx < m.roads.length) :
    (∀ bIdx bCp, roadLinkForRoadContactPoint m aKey = .road bIdx bCp →
      reciprocalRoadLink m aKey ⟨bIdx, bCp⟩)
    ∧ (∀ jIdx conn, roadLinkForRoadContactPoint m aKey = .junction jIdx →
        conn ∈ (m.junctions.getD jIdx default).connections →
        conn.incomingRoad = aKey.roadIdx →
        reciprocalRoadLink m aKey ⟨conn.connectingRoad, conn.contactPoint⟩) := by
  have hboth := roadsValidateLoop_true m (List.range m.roads.length) hvalid
    aKey.roadIdx (List.mem_range.mpr ha)
  have hit : (validateLinksIteration m aKey).1 = true := by
    obtain ⟨r, cp⟩ := aKey
    cases cp
    · exact hboth.1
    · exact hboth.2
  exact ⟨fun bIdx bCp hlink =>
      validateLinksIteration_road_recip m aKey hit bIdx bCp hlink,
    fun jIdx conn hlink hmem hinc =>
      validateLinksIteration_junction_recip m aKey hit jIdx hlink conn hmem hinc⟩

/-- C5 witness: the two-road map validates without errors, and its road-0
`END` link to road 1 at `START` is reciprocated. -/
theorem validate_links_symmetry_witness :
    ((validateLinks twoRoadMap).1 = true
      ∧ (⟨0, ContactPoint.END⟩ : RoadContactPointKey).roadIdx < twoRoadMap.roads.length
      ∧ roadLinkForRoadContactPoint twoRoadMap ⟨0, ContactPoint.END⟩
          = RoadLink.road 1 ContactPoint.START)
    ∧ reciprocalRoadLink twoRoadMap ⟨0, ContactPoint.END⟩ ⟨1, ContactPoint.START⟩ :=
  ⟨⟨by decide, by decide, by decide⟩,
    (validate_links_symmetry twoRoadMap (by decide) ⟨0, ContactPoint.END⟩ (by decide)).1
      1 ContactPoint.START (by decide)⟩

end Xodr
